import Mathlib

/-!
Verification of the MarkBridge Confluence-to-Markdown converter
(`src/extension/content-scripts/confluence.js`).

The development shallowly embeds the content script's table-normalization
pipeline (`normalizeTable` and its five steps), the Markdown table rules of
the popup's Turndown configuration (`addTableRules` / `isHeadingRow`), the
panel conversion (`convertPanels`), code-language detection
(`detectCodeLanguage` / `normalizeLanguage`), content-root extraction
(`findContentElement` / `extractPage`) and the image embedding control flow
(`fetchAndEmbedImage` / `fetchImageAsDataUri`).

Modelling conventions:
- DOM element trees are inductive values; mutation in the source is modelled
  by returning a transformed value.
- JS strings are `String`/`List Char`; `parseInt(attr, 10) || 1` on span
  attributes is modelled on attributes holding decimal naturals (`Option Nat`,
  absent or `"0"` giving the default `1`).
- A table's `style` attribute is modelled as its parsed declaration list; the
  `class` attribute of a table cell as the raw string it is matched against.
-/

namespace MarkBridge

/-- A generic DOM node as it appears inside table cells and panels: either a
text node or an element with a tag (lower-case), its class-list tokens, its
other attributes and its children. -/
inductive DNode where
  | text (s : String)
  | elem (tag : String) (classes : List String) (attrs : List (String × String)) (children : List DNode)
deriving Repr

mutual

/-- Decidable equality of DOM nodes (hand-written: `DNode` is a nested
inductive, so deriving is unavailable). -/
def decEqDNode : (a b : DNode) → Decidable (a = b)
  | .text s, .text t =>
    match decEq s t with
    | isTrue h => isTrue (by rw [h])
    | isFalse h => isFalse (fun hh => by cases hh; exact h rfl)
  | .text _, .elem _ _ _ _ => isFalse (fun h => DNode.noConfusion h)
  | .elem _ _ _ _, .text _ => isFalse (fun h => DNode.noConfusion h)
  | .elem t1 c1 a1 ch1, .elem t2 c2 a2 ch2 =>
    match decEq t1 t2 with
    | isFalse h => isFalse (fun hh => by cases hh; exact h rfl)
    | isTrue h1 =>
      match decEq c1 c2 with
      | isFalse h => isFalse (fun hh => by cases hh; exact h rfl)
      | isTrue h2 =>
        match decEq a1 a2 with
        | isFalse h => isFalse (fun hh => by cases hh; exact h rfl)
        | isTrue h3 =>
          match decEqDNodeList ch1 ch2 with
          | isFalse h => isFalse (fun hh => by cases hh; exact h rfl)
          | isTrue h4 => isTrue (by rw [h1, h2, h3, h4])

/-- Decidable equality of DOM node lists, mutually with `decEqDNode`. -/
def decEqDNodeList : (a b : List DNode) → Decidable (a = b)
  | [], [] => isTrue rfl
  | [], _ :: _ => isFalse (fun h => List.noConfusion h)
  | _ :: _, [] => isFalse (fun h => List.noConfusion h)
  | x :: xs, y :: ys =>
    match decEqDNode x y with
    | isFalse h => isFalse (fun hh => by cases hh; exact h rfl)
    | isTrue h1 =>
      match decEqDNodeList xs ys with
      | isFalse h => isFalse (fun hh => by cases hh; exact h rfl)
      | isTrue h2 => isTrue (by rw [h1, h2])

end

instance : DecidableEq DNode := decEqDNode

instance : DecidableEq (List DNode) := decEqDNodeList

/-- Tag kind of a table cell (`td` or `th`). -/
inductive CellTag where
  | td
  | th
deriving Repr, DecidableEq

/-- A table cell: its tag kind plus the attributes the normalization code
reads or writes.  `colspan`/`rowspan` model the HTML attributes (absent =
`none`); `cls` is the raw `className` string; `style` the parsed inline style
declarations; `highlightColour` the presence of `data-highlight-colour`;
`align` the `align` attribute (`""` when absent, as `getAttribute(..) || ''`);
`widthAttr`/`heightAttr` the presence of the sizing attributes. -/
structure Cell where
  tag : CellTag
  colspan : Option Nat
  rowspan : Option Nat
  cls : String
  style : List (String × String)
  highlightColour : Bool
  align : String
  widthAttr : Bool
  heightAttr : Bool
  children : List DNode
deriving Repr, DecidableEq

/-- A table row (`tr`): its cells, in order. -/
abbrev Row := List Cell

/-- A direct child of a `table` element: a `thead`, a `tbody`, or a bare
`tr`, in document order. -/
inductive TItem where
  | theadE (rows : List Row)
  | tbodyE (rows : List Row)
  | trE (row : Row)
deriving Repr, DecidableEq

/-- A `table` element: its children in document order. -/
structure Table where
  items : List TItem
deriving Repr, DecidableEq

/-- Rows of the `thead` children of a list of table items, in order. -/
def theadRowsL : List TItem → List Row
  | [] => []
  | .theadE rs :: rest => rs ++ theadRowsL rest
  | .tbodyE _ :: rest => theadRowsL rest
  | .trE _ :: rest => theadRowsL rest

/-- Rows of the non-`thead` children of a list of table items, in order. -/
def restRowsL : List TItem → List Row
  | [] => []
  | .theadE _ :: rest => restRowsL rest
  | .tbodyE rs :: rest => rs ++ restRowsL rest
  | .trE r :: rest => r :: restRowsL rest

/-- `table.rows`: per the HTML spec, rows of `thead` elements first, then
rows that are table children or inside `tbody` elements, in tree order. -/
def tableRows (t : Table) : List Row := theadRowsL t.items ++ restRowsL t.items

/-- Number of rows living inside `thead` sections. -/
def theadRowCount (t : Table) : Nat := (theadRowsL t.items).length

/-- `parseInt(cell.getAttribute('colspan'), 10) || 1`: a missing attribute
parses to `NaN` and a `"0"` to `0`, both falsy, so both default to `1`. -/
def spanVal : Option Nat → Nat
  | none => 1
  | some n => if n = 0 then 1 else n

/-- Column-span sum of one row (the `count` accumulator of `getMaxColumns`). -/
def rowColSum (r : Row) : Nat := (r.map (fun c => spanVal c.colspan)).sum

/-- `getMaxColumns` (confluence.js:594-604): the maximum over the table's
rows of the sum of each cell's column-span. -/
def getMaxColumns (t : Table) : Nat :=
  (tableRows t).foldl (fun m r => max m (rowColSum r)) 0

/-- One entry of the expansion grid built by `expandMergedCells`
(confluence.js:552-557). -/
structure GridInfo where
  originRow : Nat
  originCol : Nat
  isOrigin : Bool
  cell : Cell
deriving Repr, DecidableEq

/-- The expansion grid: `rows × maxCols` optional entries. -/
abbrev Grid := List (List (Option GridInfo))

/-- Read grid entry `(r, c)` (out-of-range reads give `null`). -/
def gridGet (g : Grid) (r c : Nat) : Option GridInfo := (g.getD r []).getD c none

/-- Write grid entry `(r, c)` (out-of-range writes are dropped, mirroring the
bounds guard in the source). -/
def gridSet (g : Grid) (r c : Nat) (v : Option GridInfo) : Grid :=
  g.set r ((g.getD r []).set c v)

/-- Mark every grid cell covered by a span (the `dr`/`dc` double loop of
`expandMergedCells`); the top-left covered cell is the origin.  `cl` is the
source cell, whose span attributes the source removes before the grid is
read back. -/
def markSpan (g : Grid) (nRows maxCols r idx rs cs : Nat) (cl : Cell) : Grid :=
  (List.range rs).foldl (fun g1 dr =>
    (List.range cs).foldl (fun g2 dc =>
      let gr := r + dr
      let gc := idx + dc
      if gr < nRows ∧ gc < maxCols then
        gridSet g2 gr gc (some ⟨r, idx, dr = 0 && dc = 0, cl⟩)
      else g2) g1) g

/-- Loop body of `findFree`; the fuel argument is `maxCols - i`, so fuel `0`
means `i` has reached `maxCols` (structural recursion keeps the definition
kernel-computable). -/
def findFreeAux (row : List (Option GridInfo)) : Nat → Nat → Nat
  | 0, i => i
  | fuel + 1, i => if (row.getD i none).isSome then findFreeAux row fuel (i + 1) else i

/-- `while (cellIdx < maxCols && grid[r][cellIdx] !== null) cellIdx++`:
first free column of `row` at or after `i`, capped at `maxCols`. -/
def findFree (row : List (Option GridInfo)) (maxCols i : Nat) : Nat :=
  findFreeAux row (maxCols - i) i

/-- Place the cells of row `r` on the grid (the inner `for (const cell of
...)` loop of `expandMergedCells`): skip to the next free column, stop when
the row is full, mark the span, and advance by the column-span. -/
def processRowCells (nRows maxCols r : Nat) : List Cell → Nat → Grid → Grid
  | [], _, g => g
  | cell :: rest, cellIdx, g =>
    let idx := findFree (g.getD r []) maxCols cellIdx
    if maxCols ≤ idx then g
    else
      let cs := spanVal cell.colspan
      let rs := spanVal cell.rowspan
      let cl : Cell := { cell with colspan := none, rowspan := none }
      processRowCells nRows maxCols r rest (idx + cs) (markSpan g nRows maxCols r idx rs cs cl)

/-- The grid-building phase of `expandMergedCells` (confluence.js:529-567). -/
def buildGrid (t : Table) : Grid :=
  let rows := tableRows t
  let maxCols := getMaxColumns t
  let init : Grid := List.replicate rows.length (List.replicate maxCols none)
  (List.range rows.length).foldl
    (fun g r => processRowCells rows.length maxCols r (rows.getD r []) 0 g) init

/-- The padding cell `document.createElement('td')` used for unassigned grid
positions. -/
def emptyTd : Cell :=
  { tag := .td, colspan := none, rowspan := none, cls := "", style := [],
    highlightColour := false, align := "", widthAttr := false, heightAttr := false,
    children := [] }

/-- Rebuild one cell from a grid entry (confluence.js:575-589): origins are
re-appended, dependents become an empty shallow clone of the origin (same tag
kind and attributes, no content), gaps are padded with an empty `td`. -/
def rebuildCell : Option GridInfo → Cell
  | some info => if info.isOrigin then info.cell else { info.cell with children := [] }
  | none => emptyTd

/-- Map a function over the table's rows indexed in `table.rows` order while
keeping each row in its section; helper for the in-place row rewrites. -/
def mapRowsFrom (f : Nat → Row → Row) : Nat → List Row → List Row
  | _, [] => []
  | i, r :: rs => f i r :: mapRowsFrom f (i + 1) rs

/-- Rewrite rows in place inside the item list; `ih` numbers `thead` rows
(which come first in `table.rows`), `ir` the remaining rows. -/
def mapItemsIdx (f : Nat → Row → Row) : Nat → Nat → List TItem → List TItem
  | _, _, [] => []
  | ih, ir, .theadE rs :: rest => .theadE (mapRowsFrom f ih rs) :: mapItemsIdx f (ih + rs.length) ir rest
  | ih, ir, .tbodyE rs :: rest => .tbodyE (mapRowsFrom f ir rs) :: mapItemsIdx f ih (ir + rs.length) rest
  | ih, ir, .trE r :: rest => .trE (f ir r) :: mapItemsIdx f ih (ir + 1) rest

/-- Apply `f` to every row of the table, indexed in `table.rows` order. -/
def mapTableRowsIdx (f : Nat → Row → Row) (t : Table) : Table :=
  ⟨mapItemsIdx f 0 (theadRowCount t) t.items⟩

/-- The rebuilt form of row `r`: one cell per grid column (the
`for (let c = 0; c < maxCols; c++)` loop of `expandMergedCells`). -/
def expandRow (g : Grid) (maxCols r : Nat) : Row :=
  (List.range maxCols).map (fun c => rebuildCell (gridGet g r c))

/-- `expandMergedCells` (confluence.js:525-592): build the span grid, then
rebuild every row with exactly `maxCols` cells read back from the grid. -/
def expandMergedCells (t : Table) : Table :=
  if (tableRows t).isEmpty then t
  else mapTableRowsIdx (fun r _ => expandRow (buildGrid t) (getMaxColumns t) r) t

/-! ### Lemmas about the row-indexed rewrite -/

theorem length_mapRowsFrom (f : Nat → Row → Row) (i : Nat) (l : List Row) :
    (mapRowsFrom f i l).length = l.length := by
  induction l generalizing i with
  | nil => rfl
  | cons r rs ihx => simp [mapRowsFrom, ihx]

theorem mapRowsFrom_append (f : Nat → Row → Row) (i : Nat) (a b : List Row) :
    mapRowsFrom f i (a ++ b) = mapRowsFrom f i a ++ mapRowsFrom f (i + a.length) b := by
  induction a generalizing i with
  | nil => simp [mapRowsFrom]
  | cons r rs ihx =>
    show f i r :: mapRowsFrom f (i + 1) (rs ++ b)
        = (f i r :: mapRowsFrom f (i + 1) rs) ++ mapRowsFrom f (i + (rs.length + 1)) b
    rw [ihx (i + 1), show i + (rs.length + 1) = i + 1 + rs.length by omega]
    simp

theorem theadRowsL_mapItemsIdx (f : Nat → Row → Row) (jh jr : Nat) (items : List TItem) :
    theadRowsL (mapItemsIdx f jh jr items) = mapRowsFrom f jh (theadRowsL items) := by
  induction items generalizing jh jr with
  | nil => rfl
  | cons it rest ihx =>
    cases it with
    | theadE rs => simp [mapItemsIdx, theadRowsL, mapRowsFrom_append, ihx, length_mapRowsFrom]
    | tbodyE rs => simp [mapItemsIdx, theadRowsL, ihx]
    | trE r => simp [mapItemsIdx, theadRowsL, ihx]

theorem restRowsL_mapItemsIdx (f : Nat → Row → Row) (jh jr : Nat) (items : List TItem) :
    restRowsL (mapItemsIdx f jh jr items) = mapRowsFrom f jr (restRowsL items) := by
  induction items generalizing jh jr with
  | nil => rfl
  | cons it rest ihx =>
    cases it with
    | theadE rs => simp [mapItemsIdx, restRowsL, ihx]
    | tbodyE rs => simp [mapItemsIdx, restRowsL, mapRowsFrom_append, ihx, length_mapRowsFrom]
    | trE r => simp [mapItemsIdx, restRowsL, mapRowsFrom, ihx]

theorem tableRows_mapTableRowsIdx (f : Nat → Row → Row) (t : Table) :
    tableRows (mapTableRowsIdx f t) = mapRowsFrom f 0 (tableRows t) := by
  unfold tableRows mapTableRowsIdx theadRowCount
  simp only [theadRowsL_mapItemsIdx, restRowsL_mapItemsIdx, mapRowsFrom_append, Nat.zero_add]

theorem getD_mapRowsFrom (f : Nat → Row → Row) (l : List Row) (i j : Nat) (hj : j < l.length) :
    (mapRowsFrom f i l).getD j [] = f (i + j) (l.getD j []) := by
  induction l generalizing i j with
  | nil => simp at hj
  | cons r rs ihx =>
    cases j with
    | zero => simp [mapRowsFrom]
    | succ k =>
      have hk : k < rs.length := by simpa using hj
      show (mapRowsFrom f (i + 1) rs).getD k [] = _
      rw [ihx (i + 1) k hk]
      congr 1
      omega

theorem mem_mapRowsFrom {f : Nat → Row → Row} {i : Nat} {l : List Row} {x : Row}
    (hx : x ∈ mapRowsFrom f i l) : ∃ j r, x = f j r := by
  induction l generalizing i with
  | nil => simp [mapRowsFrom] at hx
  | cons r rs ihx =>
    simp only [mapRowsFrom, List.mem_cons] at hx
    rcases hx with h | h
    · exact ⟨i, r, h⟩
    · exact ihx h

/-! ### Grid invariants: dimensions and span-freedom of stored cells -/

/-- The grid has `nR` rows of `nC` entries each. -/
def gridWf (g : Grid) (nR nC : Nat) : Prop :=
  g.length = nR ∧ ∀ row ∈ g, row.length = nC

/-- The cell has no `colspan`/`rowspan` attribute. -/
def cleanSpans (c : Cell) : Prop := c.colspan = none ∧ c.rowspan = none

/-- Every cell stored in the grid has had its span attributes removed. -/
def gridCleanP (g : Grid) : Prop :=
  ∀ row ∈ g, ∀ e ∈ row, ∀ info, e = some info → cleanSpans info.cell

theorem foldl_preserve {α β : Type} (P : β → Prop) (step : β → α → β)
    (hstep : ∀ b a, P b → P (step b a)) :
    ∀ (l : List α) (b : β), P b → P (l.foldl step b) := by
  intro l
  induction l with
  | nil => intro b h; exact h
  | cons x xs ihx => intro b h; exact ihx _ (hstep b x h)

theorem gridWf_gridSet {g : Grid} {nR nC : Nat} (r c : Nat) (v : Option GridInfo)
    (h : gridWf g nR nC) : gridWf (gridSet g r c v) nR nC := by
  obtain ⟨h1, h2⟩ := h
  by_cases hr : r < g.length
  · constructor
    · simpa [gridSet] using h1
    · intro row hrow
      rcases List.mem_or_eq_of_mem_set hrow with hm | hm
      · exact h2 _ hm
      · subst hm
        rw [List.length_set, List.getD_eq_getElem _ _ hr]
        exact h2 _ (List.getElem_mem hr)
  · have hid : gridSet g r c v = g := by
      unfold gridSet
      exact List.set_eq_of_length_le (le_of_not_lt hr)
    rw [hid]
    exact ⟨h1, h2⟩

theorem gridCleanP_gridSet {g : Grid} (r c : Nat) {v : Option GridInfo}
    (hval : ∀ info, v = some info → cleanSpans info.cell)
    (h : gridCleanP g) : gridCleanP (gridSet g r c v) := by
  intro row hrow e he info hinfo
  rcases List.mem_or_eq_of_mem_set hrow with hm | hm
  · exact h _ hm _ he _ hinfo
  · subst hm
    rcases List.mem_or_eq_of_mem_set he with hm2 | hm2
    · by_cases hr : r < g.length
      · rw [List.getD_eq_getElem _ _ hr] at hm2
        exact h _ (List.getElem_mem hr) _ hm2 _ hinfo
      · rw [List.getD_eq_default _ _ (le_of_not_lt hr)] at hm2
        simp at hm2
    · subst hm2
      exact hval _ hinfo

theorem markSpan_preserve (P : Grid → Prop) (g : Grid)
    (nRows maxCols r idx rs cs : Nat) (cl : Cell)
    (hv : ∀ g2 rr cc (b : Bool), P g2 → P (gridSet g2 rr cc (some ⟨r, idx, b, cl⟩)))
    (hg : P g) : P (markSpan g nRows maxCols r idx rs cs cl) := by
  unfold markSpan
  apply foldl_preserve P _ _ _ _ hg
  intro g1 dr h1
  apply foldl_preserve P _ _ _ _ h1
  intro g2 dc h2
  dsimp only
  split
  · exact hv _ _ _ _ h2
  · exact h2

theorem processRowCells_preserve (P : Grid → Prop)
    (hset : ∀ g2 rr cc (info : GridInfo), cleanSpans info.cell →
      P g2 → P (gridSet g2 rr cc (some info)))
    (nRows maxCols r : Nat) (cells : List Cell) (cellIdx : Nat) (g : Grid)
    (hg : P g) : P (processRowCells nRows maxCols r cells cellIdx g) := by
  induction cells generalizing cellIdx g with
  | nil => exact hg
  | cons cell rest ihx =>
    simp only [processRowCells]
    split
    · exact hg
    · apply ihx
      apply markSpan_preserve P _ _ _ _ _ _ _ _ _ hg
      intro g2 rr cc b h2
      exact hset g2 rr cc ⟨r, _, b, _⟩ ⟨rfl, rfl⟩ h2

theorem processRowCells_gridWf {nR nC : Nat} (nRows maxCols r : Nat)
    (cells : List Cell) (cellIdx : Nat) (g : Grid) (hg : gridWf g nR nC) :
    gridWf (processRowCells nRows maxCols r cells cellIdx g) nR nC := by
  apply processRowCells_preserve (fun g => gridWf g nR nC) _ nRows maxCols r cells cellIdx g hg
  intro g2 rr cc info _ h2
  exact gridWf_gridSet rr cc (some info) h2

theorem processRowCells_gridCleanP (nRows maxCols r : Nat)
    (cells : List Cell) (cellIdx : Nat) (g : Grid) (hg : gridCleanP g) :
    gridCleanP (processRowCells nRows maxCols r cells cellIdx g) := by
  apply processRowCells_preserve gridCleanP _ nRows maxCols r cells cellIdx g hg
  intro g2 rr cc info hcl h2
  apply gridCleanP_gridSet _ _ _ h2
  intro info2 hinfo2
  cases hinfo2
  exact hcl

theorem gridWf_buildGrid (t : Table) :
    gridWf (buildGrid t) (tableRows t).length (getMaxColumns t) := by
  unfold buildGrid
  apply foldl_preserve (fun g => gridWf g (tableRows t).length (getMaxColumns t))
  · intro g r h
    exact processRowCells_gridWf _ _ _ _ _ _ h
  · constructor
    · simp
    · intro row hrow
      rw [List.eq_of_mem_replicate hrow]
      simp

theorem gridCleanP_buildGrid (t : Table) : gridCleanP (buildGrid t) := by
  unfold buildGrid
  apply foldl_preserve gridCleanP
  · intro g r h
    exact processRowCells_gridCleanP _ _ _ _ _ _ h
  · intro row hrow e he info hinfo
    rw [List.eq_of_mem_replicate hrow] at he
    rw [List.eq_of_mem_replicate he] at hinfo
    simp at hinfo

theorem gridGet_some_bounds {g : Grid} {r c : Nat} {info : GridInfo}
    (h : gridGet g r c = some info) : r < g.length ∧ c < (g.getD r []).length := by
  unfold gridGet at h
  have hr : r < g.length := by
    by_contra hr
    rw [List.getD_eq_default _ _ (le_of_not_lt hr)] at h
    simp at h
  refine ⟨hr, ?_⟩
  by_contra hc
  rw [List.getD_eq_default _ _ (le_of_not_lt hc)] at h
  simp at h

theorem cleanSpans_of_gridGet {g : Grid} {r c : Nat} {info : GridInfo}
    (hcl : gridCleanP g) (h : gridGet g r c = some info) : cleanSpans info.cell := by
  obtain ⟨hr, hc⟩ := gridGet_some_bounds h
  have hrow : g.getD r [] ∈ g := by
    rw [List.getD_eq_getElem _ _ hr]
    exact List.getElem_mem hr
  have he : (g.getD r []).getD c none ∈ g.getD r [] := by
    rw [List.getD_eq_getElem _ _ hc]
    exact List.getElem_mem hc
  exact hcl _ hrow _ he _ h

theorem tableRows_expandMergedCells (t : Table) (h : ¬ (tableRows t).isEmpty) :
    tableRows (expandMergedCells t)
      = mapRowsFrom (fun r _ => expandRow (buildGrid t) (getMaxColumns t) r) 0 (tableRows t) := by
  unfold expandMergedCells
  rw [if_neg h, tableRows_mapTableRowsIdx]

theorem length_row_expand {t : Table} {row : Row}
    (h : row ∈ tableRows (expandMergedCells t)) : row.length = getMaxColumns t := by
  by_cases he : (tableRows t).isEmpty
  · unfold expandMergedCells at h
    rw [if_pos he] at h
    rw [List.isEmpty_iff] at he
    rw [he] at h
    simp at h
  · rw [tableRows_expandMergedCells t he] at h
    obtain ⟨j, r, rfl⟩ := mem_mapRowsFrom h
    simp [expandRow]

theorem spans_removed_expand {t : Table} {row : Row} {cl : Cell}
    (h : row ∈ tableRows (expandMergedCells t)) (hcl : cl ∈ row) :
    cl.colspan = none ∧ cl.rowspan = none := by
  by_cases he : (tableRows t).isEmpty
  · unfold expandMergedCells at h
    rw [if_pos he] at h
    rw [List.isEmpty_iff] at he
    rw [he] at h
    simp at h
  · rw [tableRows_expandMergedCells t he] at h
    obtain ⟨j, r, rfl⟩ := mem_mapRowsFrom h
    obtain ⟨c, _, rfl⟩ := List.mem_map.mp hcl
    cases hget : gridGet (buildGrid t) j c with
    | none => simp [rebuildCell, hget, emptyTd]
    | some info =>
      have hclean := cleanSpans_of_gridGet (gridCleanP_buildGrid t) hget
      simp only [rebuildCell, hget]
      split
      · exact hclean
      · exact hclean

theorem dependent_cell_expand (t : Table) (r c : Nat) (info : GridInfo)
    (hdep : gridGet (buildGrid t) r c = some info) (horig : info.isOrigin = false) :
    ((tableRows (expandMergedCells t)).getD r []).getD c emptyTd
      = { info.cell with children := [] } := by
  obtain ⟨hr, hc⟩ := gridGet_some_bounds hdep
  have hwf := gridWf_buildGrid t
  have hrlen : r < (tableRows t).length := by rw [← hwf.1]; exact hr
  have hrowmem : (buildGrid t).getD r [] ∈ buildGrid t := by
    rw [List.getD_eq_getElem _ _ hr]
    exact List.getElem_mem hr
  have hclen : c < getMaxColumns t := by
    have h2 := hwf.2 _ hrowmem
    rw [h2] at hc
    exact hc
  have hne : ¬ (tableRows t).isEmpty := by
    rw [List.isEmpty_iff]
    intro h0
    rw [h0] at hrlen
    simp at hrlen
  rw [tableRows_expandMergedCells t hne,
    getD_mapRowsFrom _ _ 0 r hrlen, Nat.zero_add]
  unfold expandRow
  have hcr : c < ((List.range (getMaxColumns t)).map
      (fun c => rebuildCell (gridGet (buildGrid t) r c))).length := by
    simpa using hclen
  rw [List.getD_eq_getElem _ _ hcr]
  simp only [List.getElem_map, List.getElem_range]
  simp [rebuildCell, hdep, horig]

/-- A data cell holding a single text node. -/
def tdCellOf (s : String) : Cell := { emptyTd with children := [DNode.text s] }

/-- A header cell holding a single text node. -/
def thCellOf (s : String) : Cell :=
  { emptyTd with tag := CellTag.th, children := [DNode.text s] }

/-- The 3-column span-expansion scenario: first row has a `th` with
`colspan=2` followed by a `td`, the second row three plain `td`s. -/
def exSpanTable : Table :=
  ⟨[.trE [{ thCellOf "A" with colspan := some 2 }, tdCellOf "B"],
    .trE [tdCellOf "C", tdCellOf "D", tdCellOf "E"]]⟩

/-- Expected expansion of `exSpanTable`: the spanning `th` loses its
`colspan`, and the second grid position is an empty duplicate `th`. -/
def exSpanExpanded : Table :=
  ⟨[.trE [thCellOf "A", { thCellOf "A" with children := [] }, tdCellOf "B"],
    .trE [tdCellOf "C", tdCellOf "D", tdCellOf "E"]]⟩

/-- **C1**: after the span-expansion step of table normalization, every row
has exactly `maxColumns` cells (the maximum over the table's rows of the sum
of the cells' column-spans, default 1); no cell retains a `colspan` or
`rowspan` attribute; every grid position covered by a span other than its
top-left origin is filled with an empty cell of the same tag kind (and
attributes) as the origin cell; and the concrete 3-column table with one
`colspan=2` cell expands to a 3-cell row whose second cell is an empty
duplicate of the origin's tag kind. -/
theorem claim_C1_span_expansion (t : Table) :
    (∀ row ∈ tableRows (expandMergedCells t), row.length = getMaxColumns t)
    ∧ (∀ row ∈ tableRows (expandMergedCells t), ∀ cl ∈ row,
        cl.colspan = none ∧ cl.rowspan = none)
    ∧ (∀ r c info, gridGet (buildGrid t) r c = some info → info.isOrigin = false →
        ((tableRows (expandMergedCells t)).getD r []).getD c emptyTd
          = { info.cell with children := [] })
    ∧ expandMergedCells exSpanTable = exSpanExpanded := by
  refine ⟨fun row h => length_row_expand h,
    fun row h cl hcl => spans_removed_expand h hcl,
    fun r c info h1 h2 => dependent_cell_expand t r c info h1 h2, ?_⟩
  decide

/-- Witness for C1: in the concrete 3-column table the grid records a
dependent (non-origin) entry at position (0,1), and the expanded table holds
the empty `th` duplicate there. -/
theorem claim_C1_span_expansion_witness :
    ((tableRows (expandMergedCells exSpanTable)).getD 0 []).getD 1 emptyTd
      = { thCellOf "A" with children := [] } :=
  (claim_C1_span_expansion exSpanTable).2.2.1 0 1 ⟨0, 0, false, thCellOf "A"⟩
    (by decide) (by decide)

/-! ### Header promotion, sectioning, header synthesis, cell linearization -/

/-- JS whitespace (the `\\s` class, ASCII part). -/
def isJsWs (c : Char) : Bool :=
  c == ' ' || c == '\t' || c == '\n' || c == '\r' || c == '\x0b' || c == '\x0c'

/-- JS `String.prototype.trim` on a character list. -/
def trimChars (l : List Char) : List Char :=
  ((l.dropWhile isJsWs).reverse.dropWhile isJsWs).reverse

/-- JS `String.prototype.trim` (kernel-computable). -/
def jsTrim (s : String) : String := ⟨trimChars s.toList⟩

/-- Lower-case a string (ASCII case-insensitive regex matching). -/
def toLowerStr (s : String) : String := ⟨s.toList.map Char.toLower⟩

/-- Whether `pat` occurs as a contiguous sublist of `hay`. -/
def subListSearch (pat : List Char) : List Char → Bool
  | [] => pat.isEmpty
  | c :: rest => pat.isPrefixOf (c :: rest) || subListSearch pat rest

/-- Case-insensitive substring containment (models `/pat/i.test(hay)` for a
literal pattern). -/
def containsCI (hay pat : String) : Bool :=
  subListSearch (toLowerStr pat).toList (toLowerStr hay).toList

/-- The header background-color palette of `promoteHeaderCells`. -/
def headerBgHexes : List String := ["#f0f0f0", "#e0e0e0", "#dfe1e5", "#f4f5f7", "#deebff"]

/-- The `background-color: #…` style test of `isHeaderCell`, on the parsed
style declaration list: some declaration names `background-color` and its
value starts with one of the five header hex colors. -/
def styleHasHeaderBg (style : List (String × String)) : Bool :=
  style.any (fun pv =>
    jsTrim (toLowerStr pv.1) == "background-color" &&
    headerBgHexes.any (fun h =>
      h.toList.isPrefixOf ((toLowerStr pv.2).toList.dropWhile isJsWs)))

mutual

/-- `textContent` of one node. -/
def textContentN : DNode → String
  | .text s => s
  | .elem _ _ _ cs => textContentL cs

/-- `textContent` of a node list. -/
def textContentL : List DNode → String
  | [] => ""
  | n :: ns => textContentN n ++ textContentL ns

end

mutual

/-- Whether a node subtree contains an element with one of the given tags
(models `querySelector` with a tag-list selector, on descendants). -/
def hasElemTagInN (tags : List String) : DNode → Bool
  | .text _ => false
  | .elem tg _ _ cs => tags.contains tg || hasElemTagInL tags cs

/-- Whether a node-list forest contains an element with one of the tags. -/
def hasElemTagInL (tags : List String) : List DNode → Bool
  | [] => false
  | n :: ns => hasElemTagInN tags n || hasElemTagInL tags ns

end

/-- `childNodes` filtered of whitespace-only text nodes (the filter in
`isHeaderCell`). -/
def significantChildren (cs : List DNode) : List DNode :=
  cs.filter (fun n =>
    match n with
    | .text s => !(jsTrim s == "")
    | .elem _ _ _ _ => true)

/-- Whether the entire cell content is one `<b>`/`<strong>` run. -/
def isBoldWrapped (cs : List DNode) : Bool :=
  match significantChildren cs with
  | [DNode.elem tg _ _ _] => tg == "b" || tg == "strong"
  | _ => false

/-- `isHeaderCell` (confluence.js:620-646): already a `th`, a header-marker
class (`confluenceTh`/`highlight-grey`/`highlight`, case-insensitive), a
`data-highlight-colour` attribute, a header background color, or content
fully wrapped in bold. -/
def isHeaderCell (td : Cell) : Bool :=
  td.tag == CellTag.th
  || (containsCI td.cls "confluenceTh" || containsCI td.cls "highlight-grey"
      || containsCI td.cls "highlight")
  || td.highlightColour
  || styleHasHeaderBg td.style
  || isBoldWrapped td.children

/-- Retag a cell as `th`, keeping content and attributes (the
`replaceWith(th)` with copied `innerHTML` and attributes). -/
def retagTh (c : Cell) : Cell :=
  if c.tag == CellTag.th then c else { c with tag := CellTag.th }

/-- `promoteHeaderCells` (confluence.js:616-682): if every first-row cell is
header-like, retag the whole first row as `th`; independently retag any
later-row `td` whose class matches `confluenceTh`. -/
def promoteHeaderCells (t : Table) : Table :=
  match (tableRows t).head? with
  | none => t
  | some firstRow =>
    let allHeaders := !firstRow.isEmpty && firstRow.all isHeaderCell
    mapTableRowsIdx (fun i row =>
      if i = 0 then
        if allHeaders then row.map retagTh else row
      else
        row.map (fun cell =>
          if cell.tag == CellTag.td && containsCI cell.cls "confluenceTh" then
            { cell with tag := CellTag.th }
          else cell)) t

/-- Whether the item list contains a `thead` element. -/
def hasTheadItem (items : List TItem) : Bool :=
  items.any (fun i => match i with | .theadE _ => true | _ => false)

/-- Whether the item list contains a `tbody` element. -/
def hasTbodyItem (items : List TItem) : Bool :=
  items.any (fun i => match i with | .tbodyE _ => true | _ => false)

/-- `thead.appendChild(row)` on the first `thead` element
(`table.querySelector('thead')`). -/
def appendToFirstThead (row : Row) : List TItem → List TItem
  | [] => []
  | .theadE rs :: rest => .theadE (rs ++ [row]) :: rest
  | it :: rest => it :: appendToFirstThead row rest

/-- Remove the first row that is a direct `tr` child or inside a `tbody`
(the first row in `table.rows` order when no `thead` row exists). -/
def removeFirstRestRow : List TItem → List TItem
  | [] => []
  | .theadE rs :: rest => .theadE rs :: removeFirstRestRow rest
  | .tbodyE [] :: rest => .tbodyE [] :: removeFirstRestRow rest
  | .tbodyE (_ :: rs) :: rest => .tbodyE rs :: rest
  | .trE _ :: rest => rest

/-- Remove the first row living in a `thead`. -/
def removeFirstTheadRow : List TItem → List TItem
  | [] => []
  | .theadE [] :: rest => .theadE [] :: removeFirstTheadRow rest
  | .theadE (_ :: rs) :: rest => .theadE rs :: rest
  | it :: rest => it :: removeFirstTheadRow rest

/-- `firstRow.remove()`: remove the first row in `table.rows` order. -/
def removeFirstRowItems (items : List TItem) : List TItem :=
  if (theadRowsL items).isEmpty then removeFirstRestRow items
  else removeFirstTheadRow items

/-- `:scope > tr` extraction: the direct `tr` children, in order, and the
item list with them removed. -/
def extractFreeRows : List TItem → List Row × List TItem
  | [] => ([], [])
  | .trE r :: rest =>
    let p := extractFreeRows rest
    (r :: p.1, p.2)
  | it :: rest =>
    let p := extractFreeRows rest
    (p.1, it :: p.2)

/-- Whether a cell's content holds a descendant `thead` element (reached by
`table.querySelector('thead')`, which searches all descendants, so also the
sections of tables nested inside cells). -/
def cellHasThead (c : Cell) : Bool := hasElemTagInL ["thead"] c.children

/-- The generic-node view of a cell, used when a row is moved into a `thead`
that lives inside a cell: the row then continues its life as part of that
cell's subtree.  Tag kind and content are kept; the class/attribute
projections of `Cell` are not re-serialized because no modelled computation
reads classes or attributes of nodes inside cells. -/
def cellToDN (c : Cell) : DNode :=
  .elem (if c.tag == CellTag.th then "th" else "td") [] [] c.children

/-- The generic-node view of a row (a `tr` element). -/
def rowToDN (r : Row) : DNode := .elem "tr" [] [] (r.map cellToDN)

mutual

/-- Append `x` into the first `thead` element of the subtree in document
(pre-order): the flag reports whether one was found. -/
def appendTheadN (x : DNode) : DNode → Bool × DNode
  | .text s => (false, .text s)
  | .elem tg cls attrs cs =>
    if tg == "thead" then (true, .elem tg cls attrs (cs ++ [x]))
    else
      match appendTheadL x cs with
      | (f, cs2) => (f, .elem tg cls attrs cs2)

/-- Append `x` into the first `thead` element of the forest, in order. -/
def appendTheadL (x : DNode) : List DNode → Bool × List DNode
  | [] => (false, [])
  | n :: ns =>
    match appendTheadN x n with
    | (true, n2) => (true, n2 :: ns)
    | (false, _) =>
      match appendTheadL x ns with
      | (f, ns2) => (f, n :: ns2)

end

/-- Append `x` into the first `thead` nested inside the row's cells. -/
def appendTheadRow (x : DNode) : Row → Bool × Row
  | [] => (false, [])
  | c :: cs =>
    match appendTheadL x c.children with
    | (true, ch2) => (true, { c with children := ch2 } :: cs)
    | (false, _) =>
      match appendTheadRow x cs with
      | (f, cs2) => (f, c :: cs2)

/-- Append `x` into the first `thead` nested inside the rows' cells. -/
def appendTheadRows (x : DNode) : List Row → Bool × List Row
  | [] => (false, [])
  | r :: rs =>
    match appendTheadRow x r with
    | (true, r2) => (true, r2 :: rs)
    | (false, _) =>
      match appendTheadRows x rs with
      | (f, rs2) => (f, r :: rs2)

/-- `table.querySelector('thead')` followed by `thead.appendChild(row)`:
the first `thead` in document order receives the row.  A top-level `thead`
child receives it as a `Row` of the table itself (the element matches before
its own descendants are scanned); a `thead` nested inside a cell of an
earlier row receives the generic-node view `x` of the row.  The flag reports
whether any `thead` was found. -/
def appendTheadItems (hdr : Row) (x : DNode) : List TItem → Bool × List TItem
  | [] => (false, [])
  | .theadE rs :: rest => (true, .theadE (rs ++ [hdr]) :: rest)
  | .tbodyE rs :: rest =>
    match appendTheadRows x rs with
    | (true, rs2) => (true, .tbodyE rs2 :: rest)
    | (false, _) =>
      match appendTheadItems hdr x rest with
      | (f, rest2) => (f, .tbodyE rs :: rest2)
  | .trE r :: rest =>
    match appendTheadRow x r with
    | (true, r2) => (true, .trE r2 :: rest)
    | (false, _) =>
      match appendTheadItems hdr x rest with
      | (f, rest2) => (f, .trE r :: rest2)

/-- Whether the document-order-first `thead` of the table lies inside the
cells of the first `table.rows` row itself.  This can only happen when no
row lives in a `thead` (otherwise a `thead` element precedes the first row
in document order) and no `thead` child element precedes the first
row-bearing item; it then holds exactly when that first row's own cells
contain a nested `thead`. -/
def firstTheadNestedInFirstRestRow : List TItem → Bool
  | [] => false
  | .theadE _ :: _ => false
  | .tbodyE [] :: rest => firstTheadNestedInFirstRestRow rest
  | .tbodyE (r :: _) :: _ => r.any cellHasThead
  | .trE r :: _ => r.any cellHasThead

/-- Whether `table.querySelector('thead')` finds its first match inside the
first `table.rows` row. -/
def firstTheadInsideFirstRow (items : List TItem) : Bool :=
  (theadRowsL items).isEmpty && firstTheadNestedInFirstRestRow items

/-- `table.querySelector('tbody')` as an existence test: a top-level `tbody`
child or a `tbody` nested inside any cell (the selector searches all
descendants).  Only existence matters: when found, the source does nothing
with it. -/
def hasTbodyDeep (items : List TItem) : Bool :=
  hasTbodyItem items
  || (theadRowsL items ++ restRowsL items).any
      (fun r => r.any (fun c => hasElemTagInL ["tbody"] c.children))

/-- `ensureThead` (confluence.js:687-714): if the first row is all `th` and
not already inside a `thead`, move it into the first descendant `thead` in
document order — a top-level one, or one nested inside a later row's cell —
creating a `thead` as first child when none exists; then, when no `tbody`
exists anywhere, collect the remaining direct `tr` children into a new
`tbody` appended at the end.  When the first descendant `thead` lies inside
the moved row itself, the source's `appendChild` throws a
`HierarchyRequestError` and the conversion aborts; the model returns the
table unchanged in that case (no theorem of this development relies on it). -/
def ensureThead (t : Table) : Table :=
  match (tableRows t).head? with
  | none => t
  | some firstRow =>
    if 0 < theadRowCount t then t
    else if firstRow.all (fun c => c.tag == CellTag.th) then
      if firstTheadInsideFirstRow t.items then t
      else
        let items1 := removeFirstRestRow t.items
        let items2 := match appendTheadItems firstRow (rowToDN firstRow) items1 with
          | (true, its) => its
          | (false, _) => TItem.theadE [firstRow] :: items1
        if hasTbodyDeep t.items then ⟨items2⟩
        else ⟨(extractFreeRows items2).2 ++ [TItem.tbodyE (extractFreeRows items2).1]⟩
    else t

/-- The media/code/table descendant test of `ensureHeaderRow`
(`cell.querySelector('img, pre, code, table')`). -/
def hasMediaL (cs : List DNode) : Bool := hasElemTagInL ["img", "pre", "code", "table"] cs

/-- The per-cell header-label heuristic of `ensureHeaderRow`: non-empty
trimmed text, under 50 characters, no embedded media/code/table. -/
def looksLikeHeaderCell (c : Cell) : Bool :=
  let text := jsTrim (textContentL c.children)
  !(text == "") && text.length < 50 && !(hasMediaL c.children)

/-- The synthetic header row of `ensureHeaderRow`: per column the first-row
cell text when it qualifies, `Column N` otherwise, in a fresh `th`. -/
def synthHeaderRow (firstRow : Row) : Row :=
  (List.range firstRow.length).map (fun i =>
    let cell := firstRow.getD i emptyTd
    let txt := jsTrim (textContentL cell.children)
    { emptyTd with
      tag := CellTag.th,
      children := [DNode.text (if looksLikeHeaderCell cell then txt else "Column " ++ toString (i + 1))] })

/-- `ensureHeaderRow` (confluence.js:721-771): when the first row holds no
`th`, append a synthetic header row to the first descendant `thead` in
document order — a top-level one, or one nested inside a cell — creating a
`thead` as first child when none exists; when every first-row cell
qualified as a label, remove the original first row.  The source appends
the header before removing the first row; removing first is equivalent
except when the document-first `thead` lies inside the removed row itself:
there the source's header is appended into the row about to be removed and
vanishes with it, so the net effect is the removal alone, which the guard
reproduces. -/
def ensureHeaderRow (t : Table) : Table :=
  match (tableRows t).head? with
  | none => t
  | some firstRow =>
    if firstRow.any (fun c => c.tag == CellTag.th) then t
    else if firstRow.length = 0 then t
    else
      let headerRow := synthHeaderRow firstRow
      let looksLikeHeaderRow := firstRow.all looksLikeHeaderCell
      let base := if looksLikeHeaderRow then removeFirstRowItems t.items else t.items
      if looksLikeHeaderRow && firstTheadInsideFirstRow t.items then ⟨base⟩
      else
        match appendTheadItems headerRow (rowToDN headerRow) base with
        | (true, items2) => ⟨items2⟩
        | (false, _) => ⟨TItem.theadE [headerRow] :: base⟩

/-- Whether the tag is one of the block tags (`p`, `div`) unwrapped by
`cleanCellContent`. -/
def isBlockTag (tg : String) : Bool := tg == "p" || tg == "div"

/-- Whether the node is a block element. -/
def isBlockN : DNode → Bool
  | .text _ => false
  | .elem tg _ _ _ => isBlockTag tg

/-- The children of a node (`[]` for text nodes). -/
def childrenN : DNode → List DNode
  | .text _ => []
  | .elem _ _ _ cs => cs

/-- The `<br>` marker inserted between unwrapped blocks. -/
def brNode : DNode := .elem "br" [] [] []

mutual

/-- Number of `p`/`div` elements in a node subtree. -/
def blockCountN : DNode → Nat
  | .text _ => 0
  | .elem tg _ _ cs => (if isBlockTag tg then 1 else 0) + blockCountL cs

/-- Number of `p`/`div` elements in a forest. -/
def blockCountL : List DNode → Nat
  | [] => 0
  | n :: ns => blockCountN n + blockCountL ns

end

mutual

/-- Unwrap the first block element found strictly inside the node (its
parent is then not the cell, so a `<br>` is inserted after its content). -/
def unwrapNestedN : DNode → Option DNode
  | .text _ => none
  | .elem tg cl a cs =>
    match unwrapNestedL cs with
    | some cs2 => some (.elem tg cl a cs2)
    | none => none

/-- Unwrap the first block element in pre-order inside a nested forest. -/
def unwrapNestedL : List DNode → Option (List DNode)
  | [] => none
  | n :: rest =>
    if isBlockN n then some (childrenN n ++ brNode :: rest)
    else
      match unwrapNestedN n with
      | some n2 => some (n2 :: rest)
      | none =>
        match unwrapNestedL rest with
        | some rest2 => some (n :: rest2)
        | none => none

end

/-- Number of element children (`cell.children.length`). -/
def elemCountL (cs : List DNode) : Nat :=
  cs.countP (fun n => match n with | .elem _ _ _ _ => true | _ => false)

/-- Unwrap the first block in pre-order among the cell's children: a
top-level block is unwrapped without a `<br>` exactly when the cell has a
single element child (`block.parentNode === cell && cell.children.length
=== 1`); nested blocks always get the `<br>`. -/
def unwrapTopL (ec : Nat) : List DNode → Option (List DNode)
  | [] => none
  | n :: rest =>
    if isBlockN n then
      some (if ec == 1 then childrenN n ++ rest else childrenN n ++ brNode :: rest)
    else
      match unwrapNestedN n with
      | some n2 => some (n2 :: rest)
      | none =>
        match unwrapTopL ec rest with
        | some rest2 => some (n :: rest2)
        | none => none

/-- One iteration of the block-unwrapping pass: process the first remaining
`p`/`div` of the cell, re-reading the live element-child count. -/
def unwrapStep (cs : List DNode) : Option (List DNode) := unwrapTopL (elemCountL cs) cs

/-- Iterate `unwrapStep` to a fixpoint; each successful step removes exactly
one block element, so `blockCountL` fuel always suffices, and processing the
first remaining block repeatedly visits blocks in the same order as the
static pre-order `querySelectorAll('p, div')` list of the source. -/
def unwrapIter : Nat → List DNode → List DNode
  | 0, cs => cs
  | fuel + 1, cs =>
    match unwrapStep cs with
    | none => cs
    | some cs2 => unwrapIter fuel cs2

/-- The block-unwrapping pass of `cleanCellContent` (confluence.js:780-797). -/
def unwrapBlocks (cs : List DNode) : List DNode := unwrapIter (blockCountL cs) cs

/-- Collapse whitespace runs to single spaces (`replace(/\s+/g, ' ')`); the
flag records whether the previous character was whitespace. -/
def collapseWsAux : Bool → List Char → List Char
  | _, [] => []
  | prevWs, c :: rest =>
    if isJsWs c then
      if prevWs then collapseWsAux true rest
      else ' ' :: collapseWsAux true rest
    else c :: collapseWsAux false rest

/-- `textContent.replace(/\n/g, ' ').replace(/\s+/g, ' ')` applied to a
direct text child of a cell. -/
def jsCleanText (s : String) : String :=
  ⟨collapseWsAux false (s.toList.map (fun c => if c == '\n' then ' ' else c))⟩

/-- `cleanCellContent` applied to one cell: unwrap block children, collapse
whitespace in direct text children, strip the sizing attributes and style
properties. -/
def cleanCell (c : Cell) : Cell :=
  { c with
    children := (unwrapBlocks c.children).map (fun n =>
      match n with
      | DNode.text s => DNode.text (jsCleanText s)
      | other => other),
    widthAttr := false,
    heightAttr := false,
    style := c.style.filter (fun pv => !(toLowerStr pv.1 == "width" || toLowerStr pv.1 == "height")) }

/-- `cleanCellContent` (confluence.js:777-813): linearize every cell of the
table. -/
def cleanCellContent (t : Table) : Table :=
  mapTableRowsIdx (fun _ row => row.map cleanCell) t

/-- `normalizeTable` (confluence.js:502-519): the five ordered steps. -/
def normalizeTable (t : Table) : Table :=
  cleanCellContent (ensureHeaderRow (ensureThead (promoteHeaderCells (expandMergedCells t))))

/-! ### Zero-row tables (claim C10) -/

theorem mapItemsIdx_nil_rows (f : Nat → Row → Row) (jh jr : Nat) (items : List TItem)
    (h1 : theadRowsL items = []) (h2 : restRowsL items = []) :
    mapItemsIdx f jh jr items = items := by
  induction items generalizing jh jr with
  | nil => rfl
  | cons it rest ihx =>
    cases it with
    | theadE rs =>
      rw [theadRowsL] at h1
      rw [restRowsL] at h2
      obtain ⟨hrs, h1'⟩ := List.append_eq_nil.mp h1
      subst hrs
      simp [mapItemsIdx, mapRowsFrom, ihx _ _ h1' h2]
    | tbodyE rs =>
      rw [theadRowsL] at h1
      rw [restRowsL] at h2
      obtain ⟨hrs, h2'⟩ := List.append_eq_nil.mp h2
      subst hrs
      simp [mapItemsIdx, mapRowsFrom, ihx _ _ h1 h2']
    | trE r =>
      rw [restRowsL] at h2
      simp at h2

theorem mapTableRowsIdx_of_no_rows (f : Nat → Row → Row) (t : Table)
    (h : tableRows t = []) : mapTableRowsIdx f t = t := by
  unfold tableRows at h
  obtain ⟨h1, h2⟩ := List.append_eq_nil.mp h
  unfold mapTableRowsIdx
  rw [mapItemsIdx_nil_rows f _ _ _ h1 h2]

/-- A zero-row table that still has (empty) section elements. -/
def exEmptyTable : Table := ⟨[TItem.theadE [], TItem.tbodyE []]⟩

/-- **C10**: on a table with zero rows, each of the five normalization steps
returns without effect, the whole normalization is the identity, and in
particular no synthetic header row is created. -/
theorem claim_C10_zero_row_tables (t : Table) (h : tableRows t = []) :
    expandMergedCells t = t
    ∧ promoteHeaderCells t = t
    ∧ ensureThead t = t
    ∧ ensureHeaderRow t = t
    ∧ cleanCellContent t = t
    ∧ normalizeTable t = t
    ∧ tableRows (normalizeTable t) = [] := by
  have hemp : (tableRows t).isEmpty = true := by rw [h]; rfl
  have hhead : (tableRows t).head? = none := by rw [h]; rfl
  have e1 : expandMergedCells t = t := by unfold expandMergedCells; rw [if_pos hemp]
  have e2 : promoteHeaderCells t = t := by unfold promoteHeaderCells; rw [hhead]
  have e3 : ensureThead t = t := by unfold ensureThead; rw [hhead]
  have e4 : ensureHeaderRow t = t := by unfold ensureHeaderRow; rw [hhead]
  have e5 : cleanCellContent t = t := mapTableRowsIdx_of_no_rows _ t h
  have e6 : normalizeTable t = t := by
    unfold normalizeTable
    rw [e1, e2, e3, e4, e5]
  exact ⟨e1, e2, e3, e4, e5, e6, by rw [e6, h]⟩

/-- Witness for C10 at a concrete table with empty `thead` and `tbody`
sections: the normalization leaves it unchanged. -/
theorem claim_C10_zero_row_tables_witness :
    normalizeTable exEmptyTable = exEmptyTable ∧ tableRows (normalizeTable exEmptyTable) = [] :=
  ⟨(claim_C10_zero_row_tables exEmptyTable (by decide)).2.2.2.2.2.1,
   (claim_C10_zero_row_tables exEmptyTable (by decide)).2.2.2.2.2.2⟩

/-! ### The Markdown table rules of the popup (`addTableRules`, confluence.js
popup section).  JS strings are modelled as `List Char`. -/

/-- `content.replace(/\|/g, '\\|')`. -/
def escPipes : List Char → List Char
  | [] => []
  | c :: rest => if c = '|' then '\\' :: '|' :: escPipes rest else c :: escPipes rest

/-- `content.replace(/\n{2,}/g, '<br>')`: a maximal run of two or more
newlines becomes `<br>`; the flag records that the current run has already
been replaced and its remaining newlines are skipped. -/
def collapseNl2Aux : Bool → List Char → List Char
  | _, [] => []
  | true, '\n' :: rest => collapseNl2Aux true rest
  | false, '\n' :: '\n' :: rest2 => '<' :: 'b' :: 'r' :: '>' :: collapseNl2Aux true rest2
  | false, ['\n'] => ['\n']
  | false, '\n' :: c :: rest => '\n' :: collapseNl2Aux false (c :: rest)
  | _, c :: rest => c :: collapseNl2Aux false rest

/-- `replace(/\n{2,}/g, '<br>')`. -/
def collapseNl2 (l : List Char) : List Char := collapseNl2Aux false l

/-- `replace(/\n{2,}/g, '\n')` (and, equivalently, collapsing every newline
run to one newline). -/
def collapseNlRunsAux : Bool → List Char → List Char
  | _, [] => []
  | prevNl, c :: rest =>
    if c = '\n' then
      if prevNl then collapseNlRunsAux true rest
      else '\n' :: collapseNlRunsAux true rest
    else c :: collapseNlRunsAux false rest

/-- JS `split('\n')`. -/
def splitNl : List Char → List (List Char)
  | [] => [[]]
  | c :: cs =>
    match splitNl cs with
    | [] => [[c]]
    | l :: ls => if c = '\n' then [] :: l :: ls else (c :: l) :: ls

/-- JS `join('\n')`. -/
def joinNl : List (List Char) → List Char
  | [] => []
  | [l] => l
  | l :: ls => l ++ '\n' :: joinNl ls

/-- The character class `[\s:|-]` of the separator-line regex. -/
def sepClassChar (c : Char) : Bool := isJsWs c || c == ':' || c == '|' || c == '-'

/-- `/^\|[\s:|-]+\|$/.test(line.trim())`: the assembled-body separator test
of the table rule. -/
def isSepLine (l : List Char) : Bool :=
  match trimChars l with
  | '|' :: rest =>
    rest.getLast? == some '|' && !rest.dropLast.isEmpty && rest.dropLast.all sepClassChar
  | _ => false

mutual

/-- Modelled rendering of a cell's inline content by the external Turndown
walk: text nodes pass through, `br` inside a cell renders as the literal
`<br>` (the `tableLineBreak` rule of `addConfluenceRules`), and other inline
markup is represented by its rendered children. -/
def renderInlineN : DNode → List Char
  | .text s => s.toList
  | .elem tg _ _ cs => if tg == "br" then ['<', 'b', 'r', '>'] else renderInlineL cs

/-- Modelled rendering of a node list's inline content. -/
def renderInlineL : List DNode → List Char
  | [] => []
  | n :: ns => renderInlineN n ++ renderInlineL ns

end

/-- The `tableCell` rule: clean the rendered content (collapse multi-line
runs to `<br>`, single newlines to spaces, escape pipes, trim) and prefix
`'| '` only for the first cell of its row. -/
def renderCellMd (content : List Char) (isFirst : Bool) : List Char :=
  let clean := trimChars (escPipes ((collapseNl2 content).map
    (fun c => if c = '\n' then ' ' else c)))
  (if isFirst then ['|', ' '] else [' ']) ++ clean ++ [' ', '|']

/-- The cell sequence of one row rendered by the `tableCell` rule. -/
def cellLineAux : Bool → List Cell → List Char
  | _, [] => []
  | isFirst, c :: rest => renderCellMd (renderInlineL c.children) isFirst ++ cellLineAux false rest

/-- The rendered content line of one row. -/
def cellLine (row : Row) : List Char := cellLineAux true row

/-- The alignment marker for one column of the separator line. -/
def borderFor (align : String) : List Char :=
  if toLowerStr align == "left" then [':', '-', '-']
  else if toLowerStr align == "right" then ['-', '-', ':']
  else if toLowerStr align == "center" then [':', '-', ':']
  else ['-', '-', '-']

/-- The separator cells appended beneath a heading row by the `tableRow`
rule. -/
def sepLineAux : Bool → List Cell → List Char
  | _, [] => []
  | isFirst, c :: rest =>
    ((if isFirst then ['|', ' '] else [' ']) ++ borderFor c.align ++ [' ', '|'])
      ++ sepLineAux false rest

/-- The separator line emitted beneath a heading row. -/
def sepLine (row : Row) : List Char := sepLineAux true row

/-- The `tableRow` rule: a leading newline, the row content, and — for
heading rows only — a newline plus the alignment-separator line. -/
def renderRowMd (heading : Bool) (row : Row) : List Char :=
  '\n' :: cellLine row ++ (if heading then '\n' :: sepLine row else [])

/-- `cells.length > 0 && cells.every(n => n.nodeName === 'TH')` of
`isHeadingRow`. -/
def rowAllTh (row : Row) : Bool :=
  !row.isEmpty && row.all (fun c => c.tag == CellTag.th)

/-- `textContent` of a cell list. -/
def cellsText : List Cell → String
  | [] => ""
  | c :: cs => textContentL c.children ++ cellsText cs

/-- `textContent` of a row list (a `thead`'s content). -/
def rowsText : List Row → String
  | [] => ""
  | r :: rs => cellsText r ++ rowsText rs

/-- `prev.textContent.trim() === ''` for a preceding `thead`. -/
def theadTextEmpty (rows : List Row) : Bool := jsTrim (rowsText rows) == ""

/-- `isFirstTbody`: no previous element sibling, or an empty-text `thead`. -/
def isFirstTbodyPrev : Option TItem → Bool
  | none => true
  | some (.theadE trows) => theadTextEmpty trows
  | some _ => false

/-- The document-order rows of the table with their `isHeadingRow` status:
`thead` rows are heading rows; the first row of the first `tbody` and a
table-first bare `tr` are heading rows when all their cells are `th`. -/
def rowsWithFlags : Bool → Option TItem → List TItem → List (Bool × Row)
  | _, _, [] => []
  | _, _, .theadE rows :: rest =>
    rows.map (fun r => (true, r)) ++ rowsWithFlags false (some (.theadE rows)) rest
  | _, prev, .tbodyE rows :: rest =>
    (match rows with
     | [] => []
     | r :: rs => (isFirstTbodyPrev prev && rowAllTh r, r) :: rs.map (fun r2 => (false, r2)))
      ++ rowsWithFlags false (some (.tbodyE rows)) rest
  | isFirst, _, .trE row :: rest =>
    (isFirst && rowAllTh row, row) :: rowsWithFlags false (some (.trE row)) rest

/-- The Turndown-assembled content of the table node: its rows rendered in
document order by the `tableRow`/`tableSection` rules (sections are
pass-through). -/
def tableContent (t : Table) : List Char :=
  ((rowsWithFlags true none t.items).map (fun fr => renderRowMd fr.1 fr.2)).flatten

/-- `content.trim().split('\n').filter(l => l.trim())` of the table rule. -/
def tableLinesPre (t : Table) : List (List Char) :=
  (splitNl (trimChars (tableContent t))).filter (fun l => !(trimChars l).isEmpty)

/-- `Array(colCount).fill('---').join(' | ')`. -/
def repSepCells : Nat → List Char
  | 0 => []
  | 1 => ['-', '-', '-']
  | n + 2 => ['-', '-', '-', ' ', '|', ' '] ++ repSepCells (n + 1)

/-- The synthetic separator `'| ' + … + ' |'` of the table rule. -/
def defaultSep (colCount : Nat) : List Char :=
  '|' :: ' ' :: repSepCells colCount ++ [' ', '|']

/-- The final line list of the table rule: when no separator line is present
and the first line has pipes, a synthetic separator is spliced in after the
first line. -/
def tableLinesOut (t : Table) : List (List Char) :=
  let lines := tableLinesPre t
  if lines.any isSepLine then lines
  else
    let colCount := (lines.headD []).count '|' - 1
    if 0 < colCount then lines.headD [] :: defaultSep colCount :: lines.tail
    else lines

/-- The `table` rule's replacement: empty content renders as the empty
string, otherwise the assembled lines joined by newlines (with newline runs
collapsed) wrapped in blank lines. -/
def renderTableMd (t : Table) : List Char :=
  if (tableLinesPre t).isEmpty then []
  else '\n' :: '\n' :: collapseNlRunsAux false (joinNl (tableLinesOut t)) ++ ['\n', '\n']

/-! ### Claim C3: header synthesis -/

theorem theadRowsL_appendToFirstThead (row : Row) (items : List TItem)
    (h : hasTheadItem items = true) :
    List.Perm (theadRowsL (appendToFirstThead row items)) (row :: theadRowsL items) := by
  induction items with
  | nil => simp [hasTheadItem] at h
  | cons it rest ihx =>
    cases it with
    | theadE rs =>
      show List.Perm (theadRowsL (.theadE (rs ++ [row]) :: rest)) _
      rw [theadRowsL, theadRowsL, List.append_assoc]
      exact List.perm_middle
    | tbodyE rs =>
      have h2 : hasTheadItem rest = true := by
        simp [hasTheadItem] at h ⊢
        exact h
      show List.Perm (theadRowsL (.tbodyE rs :: appendToFirstThead row rest)) _
      rw [theadRowsL, theadRowsL]
      exact ihx h2
    | trE r =>
      have h2 : hasTheadItem rest = true := by
        simp [hasTheadItem] at h ⊢
        exact h
      show List.Perm (theadRowsL (.trE r :: appendToFirstThead row rest)) _
      rw [theadRowsL, theadRowsL]
      exact ihx h2

theorem restRowsL_appendToFirstThead (row : Row) (items : List TItem) :
    restRowsL (appendToFirstThead row items) = restRowsL items := by
  induction items with
  | nil => rfl
  | cons it rest ihx =>
    cases it with
    | theadE rs => rfl
    | tbodyE rs => simp [appendToFirstThead, restRowsL, ihx]
    | trE r => simp [appendToFirstThead, restRowsL, ihx]

theorem removeFirstTheadRow_spec (items : List TItem) (h : theadRowsL items ≠ []) :
    theadRowsL (removeFirstTheadRow items) = (theadRowsL items).tail
    ∧ restRowsL (removeFirstTheadRow items) = restRowsL items := by
  induction items with
  | nil => exact absurd rfl h
  | cons it rest ihx =>
    cases it with
    | theadE rs =>
      cases rs with
      | nil =>
        have h2 : theadRowsL rest ≠ [] := by
          rw [theadRowsL] at h
          simpa using h
        obtain ⟨e1, e2⟩ := ihx h2
        constructor
        · show theadRowsL (.theadE [] :: removeFirstTheadRow rest) = _
          rw [theadRowsL, theadRowsL, e1]
          simp
        · show restRowsL (.theadE [] :: removeFirstTheadRow rest) = _
          rw [restRowsL, restRowsL, e2]
      | cons r rs2 => exact ⟨rfl, rfl⟩
    | tbodyE rs =>
      have h2 : theadRowsL rest ≠ [] := by
        rw [theadRowsL] at h
        exact h
      obtain ⟨e1, e2⟩ := ihx h2
      exact ⟨e1, by
        show restRowsL (.tbodyE rs :: removeFirstTheadRow rest) = _
        rw [restRowsL, restRowsL, e2]⟩
    | trE r =>
      have h2 : theadRowsL rest ≠ [] := by
        rw [theadRowsL] at h
        exact h
      obtain ⟨e1, e2⟩ := ihx h2
      exact ⟨e1, by
        show restRowsL (.trE r :: removeFirstTheadRow rest) = _
        rw [restRowsL, restRowsL, e2]⟩

theorem removeFirstRestRow_spec (items : List TItem) :
    theadRowsL (removeFirstRestRow items) = theadRowsL items
    ∧ restRowsL (removeFirstRestRow items) = (restRowsL items).tail := by
  induction items with
  | nil => exact ⟨rfl, rfl⟩
  | cons it rest ihx =>
    cases it with
    | theadE rs =>
      obtain ⟨e1, e2⟩ := ihx
      constructor
      · show theadRowsL (.theadE rs :: removeFirstRestRow rest) = _
        rw [theadRowsL, theadRowsL, e1]
      · show restRowsL (.theadE rs :: removeFirstRestRow rest) = _
        rw [restRowsL, restRowsL, e2]
    | tbodyE rs =>
      cases rs with
      | nil =>
        obtain ⟨e1, e2⟩ := ihx
        constructor
        · show theadRowsL (.tbodyE [] :: removeFirstRestRow rest) = _
          rw [theadRowsL, theadRowsL, e1]
        · show restRowsL (.tbodyE [] :: removeFirstRestRow rest) = _
          rw [restRowsL, restRowsL, e2]
          simp
      | cons r rs2 => exact ⟨rfl, rfl⟩
    | trE r => exact ⟨rfl, rfl⟩

theorem tail_append_of_ne_nil {α : Type} (a b : List α) (h : a ≠ []) :
    (a ++ b).tail = a.tail ++ b := by
  cases a with
  | nil => exact absurd rfl h
  | cons x xs => simp

theorem tableRows_removeFirstRowItems (items : List TItem) :
    tableRows ⟨removeFirstRowItems items⟩ = (tableRows ⟨items⟩).tail := by
  unfold removeFirstRowItems tableRows
  by_cases h : (theadRowsL items).isEmpty
  · rw [if_pos h]
    obtain ⟨e1, e2⟩ := removeFirstRestRow_spec items
    rw [e1, e2]
    rw [List.isEmpty_iff] at h
    rw [h]
    simp
  · rw [if_neg h]
    rw [List.isEmpty_iff] at h
    obtain ⟨e1, e2⟩ := removeFirstTheadRow_spec items h
    rw [e1, e2, tail_append_of_ne_nil _ _ h]

/-- The header-label rule as the spec words it: the first row's cell text
when non-empty, under 50 characters, and free of embedded media/code/table
content; `Column N` otherwise. -/
def specHeaderLabel (cell : Cell) (n : Nat) : String :=
  let txt := jsTrim (textContentL cell.children)
  if txt ≠ "" ∧ txt.length < 50 ∧ hasMediaL cell.children = false then txt
  else "Column " ++ toString n

theorem looksLikeHeaderCell_iff (c : Cell) :
    looksLikeHeaderCell c = true
      ↔ (jsTrim (textContentL c.children) ≠ ""
          ∧ (jsTrim (textContentL c.children)).length < 50
          ∧ hasMediaL c.children = false) := by
  unfold looksLikeHeaderCell
  simp [Bool.and_eq_true, decide_eq_true_eq]
  tauto

theorem synthHeaderRow_eq_spec (firstRow : Row) :
    synthHeaderRow firstRow
      = (List.range firstRow.length).map (fun i =>
          { emptyTd with
            tag := CellTag.th,
            children := [DNode.text (specHeaderLabel (firstRow.getD i emptyTd) (i + 1))] }) := by
  unfold synthHeaderRow specHeaderLabel
  apply List.map_congr_left
  intro i _
  by_cases h : looksLikeHeaderCell (firstRow.getD i emptyTd) = true
  · have h2 := (looksLikeHeaderCell_iff _).mp h
    simp only [h, if_pos h2]
    simp
  · have h2 : ¬ (jsTrim (textContentL (firstRow.getD i emptyTd).children) ≠ ""
        ∧ (jsTrim (textContentL (firstRow.getD i emptyTd).children)).length < 50
        ∧ hasMediaL (firstRow.getD i emptyTd).children = false) := by
      intro hc
      exact h ((looksLikeHeaderCell_iff _).mpr hc)
    rw [Bool.not_eq_true] at h
    simp only [h, if_neg h2]
    simp

mutual

theorem appendTheadN_none (x : DNode) : (n : DNode) → hasElemTagInN ["thead"] n = false →
    appendTheadN x n = (false, n)
  | .text s, _ => rfl
  | .elem tg cls attrs cs, h => by
    rw [hasElemTagInN, Bool.or_eq_false_iff] at h
    have h1 : ¬ (tg == "thead") = true := by
      intro he
      rw [show tg = "thead" from by simpa using he] at h
      simp at h
    rw [appendTheadN, if_neg h1, appendTheadL_none x cs h.2]

theorem appendTheadL_none (x : DNode) : (l : List DNode) → hasElemTagInL ["thead"] l = false →
    appendTheadL x l = (false, l)
  | [], _ => rfl
  | n :: ns, h => by
    rw [hasElemTagInL, Bool.or_eq_false_iff] at h
    rw [appendTheadL, appendTheadN_none x n h.1]
    dsimp only
    rw [appendTheadL_none x ns h.2]

end

theorem appendTheadRow_none (x : DNode) (r : Row) (h : r.any cellHasThead = false) :
    appendTheadRow x r = (false, r) := by
  induction r with
  | nil => rfl
  | cons c cs ihx =>
    rw [List.any_cons, Bool.or_eq_false_iff] at h
    rw [appendTheadRow, appendTheadL_none x c.children h.1]
    dsimp only
    rw [ihx h.2]

theorem appendTheadRows_none (x : DNode) (rs : List Row)
    (h : ∀ r ∈ rs, r.any cellHasThead = false) :
    appendTheadRows x rs = (false, rs) := by
  induction rs with
  | nil => rfl
  | cons r rs2 ihx =>
    rw [appendTheadRows, appendTheadRow_none x r (h r (List.mem_cons_self _ _))]
    dsimp only
    rw [ihx (fun r2 h2 => h r2 (List.mem_cons_of_mem _ h2))]

theorem appendTheadItems_nonested (hdr : Row) (x : DNode) (items : List TItem)
    (h : ∀ row ∈ restRowsL items, row.any cellHasThead = false) :
    appendTheadItems hdr x items
      = (hasTheadItem items,
         if hasTheadItem items then appendToFirstThead hdr items else items) := by
  induction items with
  | nil => simp [appendTheadItems, hasTheadItem]
  | cons it rest ihx =>
    cases it with
    | theadE rs => simp [appendTheadItems, hasTheadItem, appendToFirstThead]
    | tbodyE rs =>
      have h1 : appendTheadRows x rs = (false, rs) :=
        appendTheadRows_none x rs (fun r hr => h r (by
          rw [restRowsL]
          exact List.mem_append_left _ hr))
      have h2 := ihx (fun row hrow => h row (by
        rw [restRowsL]
        exact List.mem_append_right _ hrow))
      rw [appendTheadItems, h1]
      dsimp only
      rw [h2]
      have e1 : hasTheadItem (TItem.tbodyE rs :: rest) = hasTheadItem rest := by
        simp [hasTheadItem]
      have e2 : appendToFirstThead hdr (TItem.tbodyE rs :: rest)
          = TItem.tbodyE rs :: appendToFirstThead hdr rest := rfl
      rw [e1, e2]
      cases ht : hasTheadItem rest with
      | false => simp
      | true => simp
    | trE r =>
      have h1 : appendTheadRow x r = (false, r) :=
        appendTheadRow_none x r (h r (by
          rw [restRowsL]
          exact List.mem_cons_self _ _))
      have h2 := ihx (fun row hrow => h row (by
        rw [restRowsL]
        exact List.mem_cons_of_mem _ hrow))
      rw [appendTheadItems, h1]
      dsimp only
      rw [h2]
      have e1 : hasTheadItem (TItem.trE r :: rest) = hasTheadItem rest := by
        simp [hasTheadItem]
      have e2 : appendToFirstThead hdr (TItem.trE r :: rest)
          = TItem.trE r :: appendToFirstThead hdr rest := rfl
      rw [e1, e2]
      cases ht : hasTheadItem rest with
      | false => simp
      | true => simp

theorem firstTheadNested_false (items : List TItem)
    (h : ∀ row ∈ restRowsL items, row.any cellHasThead = false) :
    firstTheadNestedInFirstRestRow items = false := by
  induction items with
  | nil => rfl
  | cons it rest ihx =>
    cases it with
    | theadE rs => rfl
    | tbodyE rs =>
      cases rs with
      | nil =>
        show firstTheadNestedInFirstRestRow rest = false
        exact ihx (fun row hrow => h row (by
          rw [restRowsL]
          simpa using hrow))
      | cons r rs2 =>
        show r.any cellHasThead = false
        apply h
        rw [restRowsL]
        exact List.mem_append_left _ (List.mem_cons_self _ _)
    | trE r =>
      show r.any cellHasThead = false
      apply h
      rw [restRowsL]
      exact List.mem_cons_self _ _

theorem ensureHeaderRow_synth (u : Table) (firstRow : Row)
    (hhead : (tableRows u).head? = some firstRow) (hne : firstRow ≠ [])
    (hnoth : firstRow.any (fun c => c.tag == CellTag.th) = false)
    (hnest : ∀ row ∈ restRowsL u.items, row.any cellHasThead = false) :
    List.Perm (tableRows (ensureHeaderRow u))
      (synthHeaderRow firstRow ::
        (if firstRow.all looksLikeHeaderCell then (tableRows u).tail else tableRows u)) := by
  have hlen : ¬ firstRow.length = 0 := by
    intro h0
    exact hne (List.eq_nil_of_length_eq_zero h0)
  have hbase : tableRows ⟨if firstRow.all looksLikeHeaderCell then
        removeFirstRowItems u.items else u.items⟩
      = (if firstRow.all looksLikeHeaderCell then (tableRows u).tail else tableRows u) := by
    by_cases hl : firstRow.all looksLikeHeaderCell
    · rw [if_pos hl, if_pos hl, tableRows_removeFirstRowItems]
    · rw [if_neg hl, if_neg hl]
  have hrest_base : ∀ row ∈ restRowsL (if firstRow.all looksLikeHeaderCell then
      removeFirstRowItems u.items else u.items), row.any cellHasThead = false := by
    intro row hrow
    apply hnest
    by_cases hl : firstRow.all looksLikeHeaderCell
    · rw [if_pos hl] at hrow
      unfold removeFirstRowItems at hrow
      by_cases hh : (theadRowsL u.items).isEmpty
      · rw [if_pos hh] at hrow
        rw [(removeFirstRestRow_spec u.items).2] at hrow
        exact (List.tail_sublist _).subset hrow
      · rw [if_neg hh] at hrow
        rw [(removeFirstTheadRow_spec u.items (by simpa using hh)).2] at hrow
        exact hrow
    · rw [if_neg hl] at hrow
      exact hrow
  have hguard : firstTheadInsideFirstRow u.items = false := by
    unfold firstTheadInsideFirstRow
    rw [firstTheadNested_false u.items hnest]
    simp
  unfold ensureHeaderRow
  rw [hhead]
  simp only [hnoth, Bool.false_eq_true, if_false, if_neg hlen]
  rw [hguard]
  simp only [Bool.and_false, Bool.false_eq_true, if_false]
  rw [appendTheadItems_nonested _ _ _ hrest_base]
  by_cases ht : hasTheadItem (if firstRow.all looksLikeHeaderCell then
      removeFirstRowItems u.items else u.items)
  · rw [ht]
    simp only [if_true]
    rw [← hbase]
    show List.Perm (theadRowsL (appendToFirstThead (synthHeaderRow firstRow) _)
      ++ restRowsL (appendToFirstThead (synthHeaderRow firstRow) _)) _
    rw [restRowsL_appendToFirstThead]
    exact (List.perm_append_right_iff _).mpr (theadRowsL_appendToFirstThead _ _ ht)
  · rw [Bool.not_eq_true] at ht
    rw [ht]
    simp only [Bool.false_eq_true, if_false]
    rw [← hbase]
    show List.Perm (theadRowsL (TItem.theadE [synthHeaderRow firstRow] :: _)
      ++ restRowsL (TItem.theadE [synthHeaderRow firstRow] :: _)) _
    rw [theadRowsL, restRowsL]
    exact List.Perm.refl _

/-- The 2×2 scenario-B table: no `th` cells, first-row texts `Name`/`Age`. -/
def exTableB : Table :=
  ⟨[.trE [tdCellOf "Name", tdCellOf "Age"], .trE [tdCellOf "Alice", tdCellOf "30"]]⟩

/-- The cell holding a nested table with its own `thead` (the C3
counterexample): `table.querySelector('thead')` reaches it. -/
def exNestedCell : Cell :=
  { tdCellOf "x" with children := [DNode.elem "table" [] []
      [DNode.elem "thead" [] [] [DNode.elem "tr" [] [] [DNode.elem "th" [] [] [DNode.text "N"]]]]] }

/-- A 2×2 table with no `th` anywhere in its own rows whose first cell holds
a nested table with a `thead`. -/
def exTableNested : Table :=
  ⟨[.trE [exNestedCell, tdCellOf "B"], .trE [tdCellOf "C", tdCellOf "D"]]⟩

/-- C3 (counterexample): the claim promises that a table with no
header-tagged row after promotion and sectioning gets a synthetic header
row.  `table.querySelector('thead')` searches all descendants, so for a
table whose first cell holds a nested table with a `thead`, the synthetic
header is appended into the nested table: the outer table satisfies the
claim's precondition (no header-tagged row, non-empty first row after
promotion and sectioning) yet after the full normalization it still has no
header-tagged row, no `thead` row, and an unchanged row count. -/
theorem claim_C3_counterexample :
    (∀ row ∈ tableRows (ensureThead (promoteHeaderCells (expandMergedCells exTableNested))),
      ∀ c ∈ row, c.tag ≠ CellTag.th)
    ∧ ((tableRows (ensureThead (promoteHeaderCells (expandMergedCells exTableNested)))).headD
        []).length = 2
    ∧ (∀ row ∈ tableRows (normalizeTable exTableNested), ∀ c ∈ row, c.tag ≠ CellTag.th)
    ∧ theadRowCount (normalizeTable exTableNested) = 0
    ∧ (tableRows (normalizeTable exTableNested)).length = 2 := by
  refine ⟨by decide, by decide, by decide, by decide, by decide⟩

/-- **C3** (amended): when, after header promotion and sectioning, the table
has no header-tagged row, a non-empty first row, and none of its rows'
cells holds a nested `thead` (so the `querySelector('thead')` lookup cannot
escape into a nested table — without this the claim is false, see the
counterexample), `ensureHeaderRow` synthesizes a header row whose
per-column label follows the spec rule (`specHeaderLabel`: first-row cell
text when non-empty, under 50 characters and free of embedded
media/code/table content, `Column N` otherwise); the original first row is
removed exactly when every first-row cell qualified; and scenario B renders
as `| Name | Age |` over `| --- | --- |` with the original first row
consumed. -/
theorem claim_C3_header_synthesis (t : Table) (firstRow : Row)
    (hhead : (tableRows (ensureThead (promoteHeaderCells (expandMergedCells t)))).head?
      = some firstRow)
    (hne : firstRow ≠ [])
    (hnest : ∀ row ∈ restRowsL (ensureThead (promoteHeaderCells (expandMergedCells t))).items,
      row.any cellHasThead = false)
    (hno : ∀ row ∈ tableRows (ensureThead (promoteHeaderCells (expandMergedCells t))),
      ∀ c ∈ row, c.tag ≠ CellTag.th) :
    List.Perm
      (tableRows (ensureHeaderRow (ensureThead (promoteHeaderCells (expandMergedCells t)))))
      (synthHeaderRow firstRow ::
        (if firstRow.all looksLikeHeaderCell then
          (tableRows (ensureThead (promoteHeaderCells (expandMergedCells t)))).tail
        else tableRows (ensureThead (promoteHeaderCells (expandMergedCells t)))))
    ∧ synthHeaderRow firstRow
        = (List.range firstRow.length).map (fun i =>
            { emptyTd with
              tag := CellTag.th,
              children := [DNode.text (specHeaderLabel (firstRow.getD i emptyTd) (i + 1))] })
    ∧ tableRows (normalizeTable exTableB)
        = [[thCellOf "Name", thCellOf "Age"], [tdCellOf "Alice", tdCellOf "30"]]
    ∧ renderTableMd (normalizeTable exTableB)
        = "\n\n| Name | Age |\n| --- | --- |\n| Alice | 30 |\n\n".toList := by
  refine ⟨?_, synthHeaderRow_eq_spec firstRow, by decide, by decide⟩
  refine ensureHeaderRow_synth _ firstRow hhead hne ?_ hnest
  have hmem := List.mem_of_mem_head? hhead
  rw [List.any_eq_false]
  intro c hc
  have := hno _ hmem c hc
  simp [this]

/-- Witness for C3 at scenario B: step 4 receives the 2×2 table unchanged
(no `th` anywhere), synthesizes the `Name`/`Age` header and removes the
original first row. -/
theorem claim_C3_header_synthesis_witness :
    List.Perm
      (tableRows (ensureHeaderRow (ensureThead (promoteHeaderCells (expandMergedCells exTableB)))))
      (synthHeaderRow [tdCellOf "Name", tdCellOf "Age"] ::
        (if ([tdCellOf "Name", tdCellOf "Age"] : Row).all looksLikeHeaderCell then
          (tableRows (ensureThead (promoteHeaderCells (expandMergedCells exTableB)))).tail
        else tableRows (ensureThead (promoteHeaderCells (expandMergedCells exTableB))))) :=
  (claim_C3_header_synthesis exTableB [tdCellOf "Name", tdCellOf "Age"]
    (by decide) (by decide) (by decide) (by decide)).1

/-! ### Claim C4: idempotence.  First: when a row rewrite fixes every actual
row, it fixes the table. -/

theorem getD_append_right_len {α : Type} (a b : List α) (k : Nat) (d : α) :
    (a ++ b).getD (a.length + k) d = b.getD k d := by
  simp [List.getD_eq_getElem?_getD, List.getElem?_append_right]

theorem mapRowsFrom_id (f : Nat → Row → Row) : ∀ (l : List Row) (i : Nat),
    (∀ k, k < l.length → f (i + k) (l.getD k []) = l.getD k []) → mapRowsFrom f i l = l := by
  intro l
  induction l with
  | nil => intro i _; rfl
  | cons r rs ihx =>
    intro i h
    show f i r :: mapRowsFrom f (i + 1) rs = r :: rs
    have h0 := h 0 (by simp)
    simp only [Nat.add_zero, List.getD_cons_zero] at h0
    rw [h0]
    congr 1
    apply ihx (i + 1)
    intro k hk
    have hh := h (k + 1) (by simpa using hk)
    simp only [List.getD_cons_succ] at hh
    rw [show i + 1 + k = i + (k + 1) by omega]
    exact hh

theorem mapItemsIdx_id (f : Nat → Row → Row) : ∀ (items : List TItem) (jh jr : Nat),
    (∀ k, k < (theadRowsL items).length →
      f (jh + k) ((theadRowsL items).getD k []) = (theadRowsL items).getD k []) →
    (∀ k, k < (restRowsL items).length →
      f (jr + k) ((restRowsL items).getD k []) = (restRowsL items).getD k []) →
    mapItemsIdx f jh jr items = items := by
  intro items
  induction items with
  | nil => intro jh jr _ _; rfl
  | cons it rest ihx =>
    intro jh jr hth hre
    cases it with
    | theadE rs =>
      show TItem.theadE (mapRowsFrom f jh rs) :: mapItemsIdx f (jh + rs.length) jr rest
          = TItem.theadE rs :: rest
      have e1 : mapRowsFrom f jh rs = rs := by
        apply mapRowsFrom_id
        intro k hk
        have := hth k (by
          rw [theadRowsL, List.length_append]
          omega)
        rwa [theadRowsL, List.getD_append _ _ _ _ hk] at this
      rw [e1]
      congr 1
      apply ihx (jh + rs.length) jr
      · intro k hk
        have := hth (rs.length + k) (by
          rw [theadRowsL, List.length_append]
          omega)
        rw [theadRowsL, getD_append_right_len] at this
        rw [show jh + rs.length + k = jh + (rs.length + k) by omega]
        exact this
      · intro k hk
        have := hre k (by rwa [restRowsL])
        rwa [restRowsL] at this
    | tbodyE rs =>
      show TItem.tbodyE (mapRowsFrom f jr rs) :: mapItemsIdx f jh (jr + rs.length) rest
          = TItem.tbodyE rs :: rest
      have e1 : mapRowsFrom f jr rs = rs := by
        apply mapRowsFrom_id
        intro k hk
        have := hre k (by
          rw [restRowsL, List.length_append]
          omega)
        rwa [restRowsL, List.getD_append _ _ _ _ hk] at this
      rw [e1]
      congr 1
      apply ihx jh (jr + rs.length)
      · intro k hk
        have := hth k (by rwa [theadRowsL])
        rwa [theadRowsL] at this
      · intro k hk
        have := hre (rs.length + k) (by
          rw [restRowsL, List.length_append]
          omega)
        rw [restRowsL, getD_append_right_len] at this
        rw [show jr + rs.length + k = jr + (rs.length + k) by omega]
        exact this
    | trE r =>
      show TItem.trE (f jr r) :: mapItemsIdx f jh (jr + 1) rest = TItem.trE r :: rest
      have e1 : f jr r = r := by
        have := hre 0 (by rw [restRowsL]; simp)
        simpa [restRowsL] using this
      rw [e1]
      congr 1
      apply ihx jh (jr + 1)
      · intro k hk
        have := hth k (by rwa [theadRowsL])
        rwa [theadRowsL] at this
      · intro k hk
        have := hre (k + 1) (by rw [restRowsL]; simpa using hk)
        simp only [restRowsL, List.getD_cons_succ] at this
        rw [show jr + 1 + k = jr + (k + 1) by omega]
        exact this

theorem mapTableRowsIdx_id (f : Nat → Row → Row) (t : Table)
    (h : ∀ k, k < (tableRows t).length →
      f k ((tableRows t).getD k []) = (tableRows t).getD k []) :
    mapTableRowsIdx f t = t := by
  show (⟨mapItemsIdx f 0 (theadRowCount t) t.items⟩ : Table) = t
  have e : mapItemsIdx f 0 (theadRowCount t) t.items = t.items := by
    apply mapItemsIdx_id
    · intro k hk
      have := h k (by
        unfold tableRows
        rw [List.length_append]
        omega)
      unfold tableRows at this
      rw [List.getD_append _ _ _ _ hk] at this
      rw [Nat.zero_add]
      exact this
    · intro k hk
      have := h ((theadRowsL t.items).length + k) (by
        unfold tableRows
        rw [List.length_append]
        omega)
      unfold tableRows at this
      rw [getD_append_right_len] at this
      unfold theadRowCount
      exact this
  rw [e]

theorem getD_zero_of_head? {α : Type} {l : List α} {a : α} (d : α)
    (h : l.head? = some a) : l.getD 0 d = a := by
  cases l with
  | nil => simp at h
  | cons x xs =>
    simp at h
    simpa using h

theorem getD_mem_of_lt {α : Type} {l : List α} {k : Nat} (d : α) (h : k < l.length) :
    l.getD k d ∈ l := by
  rw [List.getD_eq_getElem _ _ h]
  exact List.getElem_mem h

theorem getD_succ_mem_tail {α : Type} {l : List α} {k : Nat} (d : α)
    (h : k + 1 < l.length) : l.getD (k + 1) d ∈ l.tail := by
  cases l with
  | nil => simp at h
  | cons x xs =>
    show xs.getD k d ∈ xs
    exact getD_mem_of_lt d (by simpa using h)

theorem promoteHeaderCells_fixed (u : Table) (r0 : Row)
    (hhead : (tableRows u).head? = some r0)
    (hr0 : r0 ≠ [] ∧ ∀ c ∈ r0, c.tag = CellTag.th)
    (hlater : ∀ row ∈ (tableRows u).tail, ∀ c ∈ row,
      c.tag = CellTag.td → containsCI c.cls "confluenceTh" = false) :
    promoteHeaderCells u = u := by
  unfold promoteHeaderCells
  rw [hhead]
  apply mapTableRowsIdx_id
  intro k hk
  cases k with
  | zero =>
    rw [getD_zero_of_head? [] hhead]
    have hall : (!r0.isEmpty && r0.all isHeaderCell) = true := by
      rw [Bool.and_eq_true]
      constructor
      · cases r0 with
        | nil => exact absurd rfl hr0.1
        | cons c cs => rfl
      · rw [List.all_eq_true]
        intro c hc
        unfold isHeaderCell
        rw [hr0.2 c hc]
        simp
    have hretag : ∀ c ∈ r0, retagTh c = c := by
      intro c hc
      unfold retagTh
      rw [hr0.2 c hc]
      simp
    rw [if_pos rfl, if_pos hall, List.map_congr_left hretag, List.map_id']
  | succ k =>
    have hmem := getD_succ_mem_tail ([] : Row) hk
    have hcells : ∀ c ∈ (tableRows u).getD (k + 1) [],
        (if c.tag == CellTag.td && containsCI c.cls "confluenceTh" then
          { c with tag := CellTag.th } else c) = c := by
      intro c hc
      by_cases htd : c.tag = CellTag.td
      · rw [hlater _ hmem c hc htd]
        simp
      · have hb : (c.tag == CellTag.td) = false := by
          simp [htd]
        rw [hb]
        simp
    rw [if_neg (Nat.succ_ne_zero k), List.map_congr_left hcells, List.map_id']

theorem ensureThead_fixed (u : Table) (hth : 0 < theadRowCount u) :
    ensureThead u = u := by
  have hne : tableRows u ≠ [] := by
    unfold theadRowCount at hth
    unfold tableRows
    intro h0
    obtain ⟨h1, _⟩ := List.append_eq_nil.mp h0
    rw [h1] at hth
    simp at hth
  obtain ⟨r0, rest, hcons⟩ := List.exists_cons_of_ne_nil hne
  unfold ensureThead
  rw [hcons]
  show (if 0 < theadRowCount u then u else _) = u
  rw [if_pos hth]

theorem ensureHeaderRow_fixed (u : Table) (r0 : Row)
    (hhead : (tableRows u).head? = some r0)
    (hth : r0.any (fun c => c.tag == CellTag.th) = true) :
    ensureHeaderRow u = u := by
  unfold ensureHeaderRow
  rw [hhead]
  dsimp only
  rw [if_pos hth]

theorem cleanCellContent_fixed (u : Table)
    (he : ∀ row ∈ tableRows u, ∀ c ∈ row, cleanCell c = c) :
    cleanCellContent u = u := by
  unfold cleanCellContent
  apply mapTableRowsIdx_id
  intro k hk
  have hmem := getD_mem_of_lt ([] : Row) hk
  rw [List.map_congr_left (he _ hmem), List.map_id']

/-! ### Claim C4, step 1: span expansion fixes span-free uniform tables -/

theorem getD_set_ne {α : Type} (l : List α) (i j : Nat) (a d : α) (h : i ≠ j) :
    (l.set i a).getD j d = l.getD j d := by
  simp [List.getD_eq_getElem?_getD, List.getElem?_set_ne h]

theorem getD_set_self {α : Type} (l : List α) (i : Nat) (a d : α) (h : i < l.length) :
    (l.set i a).getD i d = a := by
  simp [List.getD_eq_getElem?_getD, List.getElem?_set_self h]

theorem gridGet_gridSet_self {g : Grid} {r c : Nat} (v : Option GridInfo)
    (hr : r < g.length) (hc : c < (g.getD r []).length) :
    gridGet (gridSet g r c v) r c = v := by
  unfold gridGet gridSet
  rw [getD_set_self _ _ _ _ hr, getD_set_self _ _ _ _ hc]

theorem gridGet_gridSet_ne {g : Grid} {r c r' c' : Nat} (v : Option GridInfo)
    (h : r ≠ r' ∨ c ≠ c') :
    gridGet (gridSet g r c v) r' c' = gridGet g r' c' := by
  unfold gridGet gridSet
  rcases h with h | h
  · rw [getD_set_ne _ _ _ _ _ h]
  · by_cases hr : r = r'
    · subst hr
      by_cases hlen : r < g.length
      · rw [getD_set_self _ _ _ _ hlen, getD_set_ne _ _ _ _ _ h]
      · rw [List.set_eq_of_length_le (le_of_not_lt hlen)]
    · rw [getD_set_ne _ _ _ _ _ hr]

theorem gridSet_length {g : Grid} (r c : Nat) (v : Option GridInfo) :
    (gridSet g r c v).length = g.length := by
  unfold gridSet
  exact List.length_set _ _ _

theorem gridSet_rowLength {g : Grid} (r c : Nat) (v : Option GridInfo) (rr : Nat) :
    ((gridSet g r c v).getD rr []).length = (g.getD rr []).length := by
  unfold gridSet
  by_cases h : r = rr
  · subst h
    by_cases hlen : r < g.length
    · rw [getD_set_self _ _ _ _ hlen]
      exact List.length_set _ _ _
    · rw [List.set_eq_of_length_le (le_of_not_lt hlen)]
  · rw [getD_set_ne _ _ _ _ _ h]

theorem markSpan_single (g : Grid) (nR mC r idx : Nat) (cl : Cell)
    (hr : r < nR) (hc : idx < mC) :
    markSpan g nR mC r idx 1 1 cl = gridSet g r idx (some ⟨r, idx, true, cl⟩) := by
  unfold markSpan
  rw [show List.range 1 = [0] by decide]
  show (if r + 0 < nR ∧ idx + 0 < mC then
      gridSet g (r + 0) (idx + 0) (some ⟨r, idx, (0 = 0 : Bool) && (0 = 0 : Bool), cl⟩)
    else g) = _
  rw [if_pos (by omega)]
  norm_num

theorem findFree_free (row : List (Option GridInfo)) (mC j : Nat)
    (hj : j < mC) (hfree : row.getD j none = none) : findFree row mC j = j := by
  unfold findFree
  obtain ⟨m, hm⟩ : ∃ m, mC - j = m + 1 := ⟨mC - j - 1, by omega⟩
  rw [hm]
  show (if (row.getD j none).isSome then findFreeAux row m (j + 1) else j) = j
  rw [hfree]
  simp

theorem cell_update_self (c : Cell) (h1 : c.colspan = none) (h2 : c.rowspan = none) :
    ({ c with colspan := none, rowspan := none } : Cell) = c := by
  cases c
  simp_all

/-- Full characterization of `processRowCells` for a span-free cell list
placed into a free suffix of row `r`. -/
theorem processRowCells_noSpans (nR mC r : Nat) (hrN : r < nR) :
    ∀ (rest : List Cell) (j : Nat) (g : Grid),
    (∀ c ∈ rest, c.colspan = none ∧ c.rowspan = none) →
    r < g.length →
    (g.getD r []).length = mC →
    (∀ i, j ≤ i → i < mC → gridGet g r i = none) →
    j + rest.length ≤ mC →
    (∀ k, k < rest.length →
      gridGet (processRowCells nR mC r rest j g) r (j + k)
        = some ⟨r, j + k, true, rest.getD k emptyTd⟩)
    ∧ (∀ c', c' < j →
      gridGet (processRowCells nR mC r rest j g) r c' = gridGet g r c')
    ∧ (∀ r' c', r' ≠ r →
      gridGet (processRowCells nR mC r rest j g) r' c' = gridGet g r' c')
    ∧ (processRowCells nR mC r rest j g).length = g.length
    ∧ (∀ rr, ((processRowCells nR mC r rest j g).getD rr []).length
        = (g.getD rr []).length) := by
  intro rest
  induction rest with
  | nil =>
    intro j g _ _ _ _ _
    refine ⟨?_, ?_, ?_, rfl, ?_⟩
    · intro k hk
      simp at hk
    · intro c' _
      rfl
    · intro r' c' _
      rfl
    · intro rr
      rfl
  | cons cell rest2 ihx =>
    intro j g hclean hg hrowlen hfree hfit
    have hjC : j < mC := by
      have := hfit
      simp only [List.length_cons] at this
      omega
    have hidx : findFree (g.getD r []) mC j = j :=
      findFree_free _ _ _ hjC (hfree j (le_refl j) hjC)
    have hcellclean := hclean cell (List.mem_cons_self cell rest2)
    have hspan1 : spanVal cell.colspan = 1 := by rw [hcellclean.1]; rfl
    have hspan2 : spanVal cell.rowspan = 1 := by rw [hcellclean.2]; rfl
    have hclupd : ({ cell with colspan := none, rowspan := none } : Cell) = cell :=
      cell_update_self cell hcellclean.1 hcellclean.2
    have hstep : processRowCells nR mC r (cell :: rest2) j g
        = processRowCells nR mC r rest2 (j + 1)
            (gridSet g r j (some ⟨r, j, true, cell⟩)) := by
      show (let idx := findFree (g.getD r []) mC j
        if mC ≤ idx then g
        else
          processRowCells nR mC r rest2
            (idx + spanVal cell.colspan)
            (markSpan g nR mC r idx (spanVal cell.rowspan) (spanVal cell.colspan)
              { cell with colspan := none, rowspan := none })) = _
      rw [hidx]
      rw [if_neg (by omega)]
      rw [hspan1, hspan2, hclupd]
      rw [markSpan_single g nR mC r j cell hrN hjC]
    set g' := gridSet g r j (some ⟨r, j, true, cell⟩) with hg'
    have hg'len : r < g'.length := by
      rw [hg', gridSet_length]
      exact hg
    have hg'rowlen : (g'.getD r []).length = mC := by
      rw [hg', gridSet_rowLength]
      exact hrowlen
    have hg'free : ∀ i, j + 1 ≤ i → i < mC → gridGet g' r i = none := by
      intro i hi1 hi2
      rw [hg', gridGet_gridSet_ne _ (Or.inr (by omega))]
      exact hfree i (by omega) hi2
    have hg'fit : j + 1 + rest2.length ≤ mC := by
      have := hfit
      simp only [List.length_cons] at this
      omega
    obtain ⟨c1, c2, c3, c4, c5⟩ :=
      ihx (j + 1) g' (fun c hc => hclean c (List.mem_cons_of_mem _ hc))
        hg'len hg'rowlen hg'free hg'fit
    rw [hstep]
    refine ⟨?_, ?_, ?_, ?_, ?_⟩
    · intro k hk
      cases k with
      | zero =>
        simp only [Nat.add_zero, List.getD_cons_zero]
        rw [c2 j (by omega)]
        rw [hg', gridGet_gridSet_self _ hg (by rw [hrowlen]; exact hjC)]
      | succ k2 =>
        have hk2 : k2 < rest2.length := by
          simp only [List.length_cons] at hk
          omega
        have := c1 k2 hk2
        rw [show j + (k2 + 1) = j + 1 + k2 by omega]
        rw [this]
        rfl
    · intro c' hc'
      rw [c2 c' (by omega)]
      rw [hg', gridGet_gridSet_ne _ (Or.inr (by omega))]
    · intro r' c' hr'
      rw [c3 r' c' hr']
      rw [hg', gridGet_gridSet_ne _ (Or.inl (fun he => hr' he.symm))]
    · rw [c4, hg', gridSet_length]
    · intro rr
      rw [c5 rr, hg', gridSet_rowLength]

theorem getD_replicate_ite {α : Type} (n : Nat) (x d : α) (r : Nat) :
    (List.replicate n x).getD r d = if r < n then x else d := by
  by_cases h : r < n
  · rw [if_pos h, List.getD_eq_getElem _ _ (by simpa using h)]
    simp
  · rw [if_neg h]
    exact List.getD_eq_default _ _ (by simpa using le_of_not_lt h)

theorem buildGrid_noSpans (u : Table)
    (hlen : ∀ row ∈ tableRows u, row.length = getMaxColumns u)
    (hclean : ∀ row ∈ tableRows u, ∀ c ∈ row, c.colspan = none ∧ c.rowspan = none) :
    ∀ r, r < (tableRows u).length → ∀ c, c < getMaxColumns u →
      gridGet (buildGrid u) r c
        = some ⟨r, c, true, ((tableRows u).getD r []).getD c emptyTd⟩ := by
  set rows := tableRows u with hrows
  set L := getMaxColumns u with hL
  set N := rows.length with hN
  set step := fun (g : Grid) (r : Nat) => processRowCells N L r (rows.getD r []) 0 g with hstep
  set init : Grid := List.replicate N (List.replicate L none) with hinit
  have initlen : ∀ rr, rr < N → (init.getD rr []).length = L := by
    intro rr hrr
    rw [hinit, getD_replicate_ite, if_pos hrr]
    simp
  have main : ∀ n, n ≤ N →
      ((List.range n).foldl step init).length = N
      ∧ (∀ rr, rr < N → (((List.range n).foldl step init).getD rr []).length = L)
      ∧ (∀ r, r < n → ∀ c, c < L → gridGet ((List.range n).foldl step init) r c
          = some ⟨r, c, true, (rows.getD r []).getD c emptyTd⟩)
      ∧ (∀ r, n ≤ r → ∀ c, gridGet ((List.range n).foldl step init) r c = none) := by
    intro n
    induction n with
    | zero =>
      intro _
      refine ⟨by simp [hinit], fun rr hrr => initlen rr hrr, ?_, ?_⟩
      · intro r hr
        simp at hr
      · intro r _ c
        show gridGet init r c = none
        unfold gridGet
        rw [hinit, getD_replicate_ite]
        by_cases hr : r < N
        · rw [if_pos hr, getD_replicate_ite]
          split <;> rfl
        · rw [if_neg hr]
          rfl
    | succ n ihn =>
      intro hn1
      have hnN : n < N := by omega
      obtain ⟨i1, i2, i3, i4⟩ := ihn (by omega)
      have hrowmem : rows.getD n [] ∈ rows := getD_mem_of_lt [] hnN
      have happ : (List.range (n + 1)).foldl step init
          = step ((List.range n).foldl step init) n := by
        rw [List.range_succ, List.foldl_append]
        rfl
      obtain ⟨c1, c2, c3, c4, c5⟩ :=
        processRowCells_noSpans N L n hnN (rows.getD n []) 0 ((List.range n).foldl step init)
          (fun c hc => hclean _ hrowmem c hc)
          (by rw [i1]; exact hnN)
          (i2 n hnN)
          (fun i _ hi => i4 n (le_refl n) i)
          (by rw [hlen _ hrowmem]; omega)
      refine ⟨?_, ?_, ?_, ?_⟩
      · rw [happ]
        show (processRowCells N L n (rows.getD n []) 0 _).length = N
        rw [c4, i1]
      · intro rr hrr
        rw [happ]
        show ((processRowCells N L n (rows.getD n []) 0 _).getD rr []).length = L
        rw [c5 rr]
        exact i2 rr hrr
      · intro r hr c hc
        rw [happ]
        show gridGet (processRowCells N L n (rows.getD n []) 0 _) r c = _
        by_cases hrn : r = n
        · subst hrn
          have hclen : c < (rows.getD r []).length := by
            rw [hlen _ hrowmem]
            exact hc
          have := c1 c hclen
          rw [Nat.zero_add] at this
          exact this
        · rw [c3 r c hrn]
          exact i3 r (by omega) c hc
      · intro r hr c
        rw [happ]
        show gridGet (processRowCells N L n (rows.getD n []) 0 _) r c = none
        rw [c3 r c (by omega)]
        exact i4 r (by omega) c
  intro r hr c hc
  have hfin := (main N (le_refl N)).2.2.1 r hr c hc
  exact hfin

theorem expandMergedCells_fixed (u : Table)
    (hlen : ∀ row ∈ tableRows u, row.length = getMaxColumns u)
    (hclean : ∀ row ∈ tableRows u, ∀ c ∈ row, c.colspan = none ∧ c.rowspan = none) :
    expandMergedCells u = u := by
  by_cases hemp : (tableRows u).isEmpty
  · unfold expandMergedCells
    rw [if_pos hemp]
  · unfold expandMergedCells
    rw [if_neg hemp]
    apply mapTableRowsIdx_id
    intro k hk
    have hrowmem : (tableRows u).getD k [] ∈ tableRows u := getD_mem_of_lt [] hk
    apply List.ext_getElem
    · show ((List.range (getMaxColumns u)).map _).length = _
      rw [List.length_map, List.length_range]
      exact (hlen _ hrowmem).symm
    · intro i h1 h2
      have hiL : i < getMaxColumns u := by
        simpa [expandRow] using h1
      show ((List.range (getMaxColumns u)).map
        (fun c => rebuildCell (gridGet (buildGrid u) k c)))[i] = _
      rw [List.getElem_map, List.getElem_range]
      rw [buildGrid_noSpans u hlen hclean k hk i hiL]
      have hrb : rebuildCell (some ⟨k, i, true, ((tableRows u).getD k []).getD i emptyTd⟩)
          = ((tableRows u).getD k []).getD i emptyTd := rfl
      rw [hrb]
      exact List.getD_eq_getElem _ _ h2

/-- A table in fully-normalized form is a fixed point of `normalizeTable`:
rows all have `maxColumns` cells and no span attributes, the first row is a
non-empty all-`th` row inside a `thead`, no later-row `td` carries a
header-marker class, and every cell is linearization-clean. -/
theorem normalizeTable_fixed (u : Table) (r0 : Row)
    (h1 : ∀ row ∈ tableRows u, row.length = getMaxColumns u)
    (h2 : ∀ row ∈ tableRows u, ∀ c ∈ row, c.colspan = none ∧ c.rowspan = none)
    (h3 : (tableRows u).head? = some r0)
    (h4 : r0 ≠ [] ∧ ∀ c ∈ r0, c.tag = CellTag.th)
    (h5 : 0 < theadRowCount u)
    (h6 : ∀ row ∈ (tableRows u).tail, ∀ c ∈ row,
      c.tag = CellTag.td → containsCI c.cls "confluenceTh" = false)
    (h7 : ∀ row ∈ tableRows u, ∀ c ∈ row, cleanCell c = c) :
    normalizeTable u = u := by
  have e1 : expandMergedCells u = u := expandMergedCells_fixed u h1 h2
  have e2 : promoteHeaderCells u = u := promoteHeaderCells_fixed u r0 h3 h4 h6
  have e3 : ensureThead u = u := ensureThead_fixed u h5
  have e4 : ensureHeaderRow u = u := by
    apply ensureHeaderRow_fixed u r0 h3
    rw [List.any_eq_true]
    cases hr : r0 with
    | nil => exact absurd hr h4.1
    | cons c cs =>
      refine ⟨c, List.mem_cons_self c cs, ?_⟩
      have := h4.2 c (by rw [hr]; exact List.mem_cons_self c cs)
      simp [this]
  have e5 : cleanCellContent u = u := cleanCellContent_fixed u h7
  unfold normalizeTable
  rw [e1, e2, e3, e4, e5]

/-- A table whose `thead` holds a single data (`td`) row with a long text:
normalization appends a synthetic header after it inside the `thead`, and a
second run appends yet another. -/
def exNonIdem : Table :=
  ⟨[.theadE [[tdCellOf "xxxxxxxxxxxxxxxxxxxxxxxxxxxxxxxxxxxxxxxxxxxxxxxxxxxxxxxxxxx"]]]⟩

/-- Counterexample to C4 as stated: table normalization is not idempotent.
On `exNonIdem` the first run appends a synthetic `Column 1` header row to the
`thead` after the data row; the second run, still seeing a first row with no
`th`, appends another. -/
theorem claim_C4_counterexample :
    normalizeTable (normalizeTable exNonIdem) ≠ normalizeTable exNonIdem := by
  decide

/-- **C4 (amended)**: re-running table normalization produces no structural
change for every table whose normalized form satisfies the normal-form
conditions: uniform span-free rows, a non-empty fully header-tagged first
row inside a `thead`, no later-row `td` with a header-marker class, and
linearization-clean cells.  (The unrestricted claim is refuted by
`claim_C4_counterexample`, where the normalized table's first row is a
`thead` data row without `th` cells.) -/
theorem claim_C4_idempotence_amended (t : Table) (r0 : Row)
    (h1 : ∀ row ∈ tableRows (normalizeTable t),
      row.length = getMaxColumns (normalizeTable t))
    (h2 : ∀ row ∈ tableRows (normalizeTable t), ∀ c ∈ row,
      c.colspan = none ∧ c.rowspan = none)
    (h3 : (tableRows (normalizeTable t)).head? = some r0)
    (h4 : r0 ≠ [] ∧ ∀ c ∈ r0, c.tag = CellTag.th)
    (h5 : 0 < theadRowCount (normalizeTable t))
    (h6 : ∀ row ∈ (tableRows (normalizeTable t)).tail, ∀ c ∈ row,
      c.tag = CellTag.td → containsCI c.cls "confluenceTh" = false)
    (h7 : ∀ row ∈ tableRows (normalizeTable t), ∀ c ∈ row, cleanCell c = c) :
    normalizeTable (normalizeTable t) = normalizeTable t :=
  normalizeTable_fixed (normalizeTable t) r0 h1 h2 h3 h4 h5 h6 h7

/-- Witness for the amended C4: the normalized scenario-B table satisfies
every normal-form condition, so a second normalization run leaves it
unchanged. -/
theorem claim_C4_idempotence_amended_witness :
    normalizeTable (normalizeTable exTableB) = normalizeTable exTableB :=
  claim_C4_idempotence_amended exTableB [thCellOf "Name", thCellOf "Age"]
    (by decide) (by decide) (by decide) (by decide) (by decide) (by decide) (by decide)

/-! ### Claim C6: code-language detection (`detectCodeLanguage` /
`normalizeLanguage`, confluence.js:277-309) -/

/-- `a || b` on nullable strings (`''` is falsy). -/
def firstTruthy (a b : Option String) : Option String :=
  match a with
  | some s => if s = "" then b else some s
  | none => b

/-- `s.startsWith p` (kernel-computable). -/
def jsStartsWith (s p : String) : Bool := p.toList.isPrefixOf s.toList

/-- An `img` element abstracted to its `src` attribute. -/
structure Img where
  src : String
deriving Repr, DecidableEq

/-- The network response seen by strategy 1 (`fetch`), when the fetch itself
does not fail: HTTP ok flag, blob content type and size, and the data URI
the blob encodes to. -/
structure FetchResponse where
  ok : Bool
  blobType : String
  blobSize : Nat
  dataUri : String
deriving Repr, DecidableEq

/-- Outcome of the primary `fetch` strategy: a network/timeout failure or a
response. -/
inductive S1 where
  | fail
  | resp (r : FetchResponse)
deriving Repr, DecidableEq

/-- Outcome of the canvas fallback strategy. -/
inductive S2 where
  | fail
  | uri (u : String)
deriving Repr, DecidableEq

/-- `fetchImageAsDataUri` (confluence.js:945-982): the primary strategy
throws on network failure, non-ok status, or a non-image content type; a
payload over 5MB resolves to `null` (keep as URL) without trying the
fallback; any primary throw falls back to the canvas strategy, and when that
also fails the original error propagates. -/
def fetchImageAsDataUri (s1 : S1) (s2 : S2) : Except Unit (Option String) :=
  let primary : Except Unit (Option String) :=
    match s1 with
    | .fail => .error ()
    | .resp r =>
      if ¬ r.ok then .error ()
      else if ¬ jsStartsWith r.blobType "image/" then .error ()
      else if 5 * 1024 * 1024 < r.blobSize then .ok none
      else .ok (some r.dataUri)
  match primary with
  | .ok v => .ok v
  | .error e =>
    match s2 with
    | .uri u => .ok (some u)
    | .fail => .error e

/-- `fetchAndEmbedImage` (confluence.js:917-936): data URIs and empty or
`about:blank` sources are skipped; a successful fetch replaces `src`; a
`null` result or any failure leaves the image untouched — the surrounding
`try`/`catch` absorbs every error, so the function is total. -/
def fetchAndEmbedImage (img : Img) (s1 : S1) (s2 : S2) : Img :=
  if jsStartsWith img.src "data:" then img
  else if img.src = "" || img.src = "about:blank" then img
  else
    match fetchImageAsDataUri s1 s2 with
    | .ok (some u) => { img with src := u }
    | .ok none => img
    | .error _ => img

/-- **C8**: when both embedding strategies fail, the image's original `src`
is preserved unchanged, the image is not marked embedded (its `src` is not
turned into a data URI), and the failure is absorbed — `fetchAndEmbedImage`
returns an unchanged image rather than propagating the error. -/
theorem claim_C8_embed_failure_absorbed (img : Img) (s1 : S1) (s2 : S2)
    (hfail : ∃ e, fetchImageAsDataUri s1 s2 = .error e) :
    fetchAndEmbedImage img s1 s2 = img
    ∧ (fetchAndEmbedImage img s1 s2).src = img.src := by
  obtain ⟨e, he⟩ := hfail
  have hmain : fetchAndEmbedImage img s1 s2 = img := by
    unfold fetchAndEmbedImage
    by_cases h1 : jsStartsWith img.src "data:"
    · rw [if_pos h1]
    · rw [if_neg h1]
      by_cases h2 : (img.src = "" || img.src = "about:blank") = true
      · rw [if_pos h2]
      · rw [if_neg h2, he]
  exact ⟨hmain, by rw [hmain]⟩

/-- Witness for C8: an authenticated fetch rejected with a non-image
content type and a failing canvas fallback leave the image's URL intact. -/
theorem claim_C8_embed_failure_absorbed_witness :
    fetchAndEmbedImage ⟨"https://example.org/a.png"⟩
        (S1.resp ⟨true, "text/html", 512, "data:text/html,x"⟩) S2.fail
      = ⟨"https://example.org/a.png"⟩
    ∧ (fetchAndEmbedImage ⟨"https://example.org/a.png"⟩
        (S1.resp ⟨true, "text/html", 512, "data:text/html,x"⟩) S2.fail).src
      = "https://example.org/a.png" :=
  claim_C8_embed_failure_absorbed ⟨"https://example.org/a.png"⟩
    (S1.resp ⟨true, "text/html", 512, "data:text/html,x"⟩) S2.fail ⟨(), rfl⟩

/-! ### Claim C5: admonition panels (`convertPanels` / `getEmojiForPanel`,
confluence.js:312-394) -/

/-- The class-list of a node (`[]` for text nodes). -/
def classesN : DNode → List String
  | .text _ => []
  | .elem _ cl _ _ => cl

/-- `node.classList.contains(tok)`. -/
def hasClassTok (tok : String) (n : DNode) : Bool := (classesN n).contains tok

/-- `node.getAttribute(name)`. -/
def getAttrN (name : String) : DNode → Option String
  | .text _ => none
  | .elem _ _ attrs _ => (attrs.find? (fun p => p.1 = name)).map (fun p => p.2)

mutual

/-- Pre-order `querySelector` over a node list for a node predicate. -/
def queryPredL (p : DNode → Bool) : List DNode → Option DNode
  | [] => none
  | n :: rest =>
    if p n then some n
    else
      match queryPredInside p n with
      | some m => some m
      | none => queryPredL p rest

/-- Pre-order `querySelector` among the descendants of one node. -/
def queryPredInside (p : DNode → Bool) : DNode → Option DNode
  | .text _ => none
  | .elem _ _ _ cs => queryPredL p cs

end

/-- The ordered class-to-label table of `convertPanels`. -/
def panelClassPairs : List (String × String) :=
  [("confluence-information-macro-information", "Info"),
   ("confluence-information-macro-note", "Note"),
   ("confluence-information-macro-warning", "Warning"),
   ("confluence-information-macro-tip", "Tip"),
   ("confluence-information-macro-success", "Success")]

/-- The label of an old-style panel: the first table entry whose class is
present, `Note` otherwise. -/
def panelTypeOf (classes : List String) : String :=
  match panelClassPairs.find? (fun p => classes.contains p.1) with
  | some p => p.2
  | none => "Note"

/-- `getEmojiForPanel` (confluence.js:384-394). -/
def getEmojiForPanel (ty : String) : String :=
  if ty = "Info" then "ℹ️"
  else if ty = "Note" then "📝"
  else if ty = "Warning" then "⚠️"
  else if ty = "Tip" then "💡"
  else if ty = "Success" then "✅"
  else if ty = "Error" then "❌"
  else "ℹ️"

/-- The blockquote built for an old-style `confluence-information-macro`
element: a `<p><strong>{emoji} {Label}:</strong></p>` prefix followed by the
children of the macro body (the macro itself when no body wrapper exists). -/
def buildInfoMacroBlockquote (n : DNode) : DNode :=
  let ty := panelTypeOf (classesN n)
  let body := (queryPredL (hasClassTok "confluence-information-macro-body") (childrenN n)).getD n
  DNode.elem "blockquote" [] []
    (DNode.elem "p" [] []
      [DNode.elem "strong" [] [] [DNode.text (getEmojiForPanel ty ++ " " ++ ty ++ ":")]]
      :: childrenN body)

mutual

/-- The old-style pass of `convertPanels`: replace each
`.confluence-information-macro` element by its blockquote (the replacement's
contents are clones, which the static `querySelectorAll` list does not
revisit, so matches inside a replaced macro are not converted again). -/
def convertOldPanelsN : DNode → DNode
  | .text s => .text s
  | .elem tg cl a cs =>
    if cl.contains "confluence-information-macro" then
      buildInfoMacroBlockquote (.elem tg cl a cs)
    else .elem tg cl a (convertOldPanelsL cs)

/-- `convertOldPanelsN` over a node list. -/
def convertOldPanelsL : List DNode → List DNode
  | [] => []
  | n :: ns => convertOldPanelsN n :: convertOldPanelsL ns

end

/-- `type.charAt(0).toUpperCase() + type.slice(1)`. -/
def capitalizeFirst (s : String) : String :=
  match s.toList with
  | [] => ""
  | c :: rest => ⟨c.toUpper :: rest⟩

/-- The blockquote built for a new-style `[data-panel-type]` panel. -/
def buildDataPanelBlockquote (n : DNode) : DNode :=
  let ty := match getAttrN "data-panel-type" n with
    | some s => if s = "" then "info" else s
    | none => "info"
  let label := capitalizeFirst ty
  let content := (queryPredL (fun m => (getAttrN "data-panel-content" m).isSome)
    (childrenN n)).getD n
  DNode.elem "blockquote" [] []
    (DNode.elem "p" [] []
      [DNode.elem "strong" [] [] [DNode.text (getEmojiForPanel label ++ " " ++ label ++ ":")]]
      :: childrenN content)

mutual

/-- The new-style pass of `convertPanels` (`[data-panel-type]`). -/
def convertNewPanelsN : DNode → DNode
  | .text s => .text s
  | .elem tg cl a cs =>
    if ((a.find? (fun p => p.1 = "data-panel-type")).map (fun p => p.2)).isSome then
      buildDataPanelBlockquote (.elem tg cl a cs)
    else .elem tg cl a (convertNewPanelsL cs)

/-- `convertNewPanelsN` over a node list. -/
def convertNewPanelsL : List DNode → List DNode
  | [] => []
  | n :: ns => convertNewPanelsN n :: convertNewPanelsL ns

end

/-- The blockquote built for a generic colored panel (`.panel:not(.code)`):
an optional bold header line from `.panelHeader`, then the children of
`.panelContent` (or of the panel itself). -/
def buildGenericPanelBlockquote (n : DNode) : DNode :=
  let header := queryPredL (hasClassTok "panelHeader") (childrenN n)
  let body := (queryPredL (hasClassTok "panelContent") (childrenN n)).getD n
  DNode.elem "blockquote" [] []
    ((match header with
      | some h =>
        [DNode.elem "p" [] [] [DNode.elem "strong" [] [] [DNode.text (jsTrim (textContentN h))]]]
      | none => [])
      ++ childrenN body)

mutual

/-- The generic-panel pass of `convertPanels` (`.panel:not(.code)`). -/
def convertGenericPanelsN : DNode → DNode
  | .text s => .text s
  | .elem tg cl a cs =>
    if cl.contains "panel" && !cl.contains "code" then
      buildGenericPanelBlockquote (.elem tg cl a cs)
    else .elem tg cl a (convertGenericPanelsL cs)

/-- `convertGenericPanelsN` over a node list. -/
def convertGenericPanelsL : List DNode → List DNode
  | [] => []
  | n :: ns => convertGenericPanelsN n :: convertGenericPanelsL ns

end

/-- `convertPanels` (confluence.js:312-382): the three passes in source
order, applied to the container's children. -/
def convertPanelsL (cs : List DNode) : List DNode :=
  convertGenericPanelsL (convertNewPanelsL (convertOldPanelsL cs))

mutual

/-- Modelled from the spec: the external Turndown rendering of one inline
node for the admonition fragment (text passes through, `strong`/`b` wraps
in `**`). -/
def renderInlineMdN : DNode → String
  | .text s => s
  | .elem tg _ _ cs =>
    if tg == "strong" || tg == "b" then "**" ++ renderInlineMdL2 cs ++ "**"
    else renderInlineMdL2 cs

/-- Modelled from the spec: inline rendering of a node list. -/
def renderInlineMdL2 : List DNode → String
  | [] => ""
  | n :: rest => renderInlineMdN n ++ renderInlineMdL2 rest

end

/-- Modelled from the spec: the paragraph sequence of a blockquote body,
each block rendered to one Markdown line. -/
def renderBlockSeq : List DNode → List String
  | [] => []
  | .text s :: rest => s :: renderBlockSeq rest
  | .elem tg cl a cs :: rest =>
    (if tg == "p" then renderInlineMdL2 cs
     else renderInlineMdN (.elem tg cl a cs)) :: renderBlockSeq rest

/-- Join strings with a separator (kernel-computable `intercalate`). -/
def joinSep (sep : String) : List String → String
  | [] => ""
  | [s] => s
  | s :: rest => s ++ sep ++ joinSep sep rest

/-- Modelled from the spec: the external Turndown blockquote rule — the
block sequence separated by blank quoted lines, every line prefixed `> `. -/
def renderBlockquoteMd (cs : List DNode) : String :=
  "> " ++ joinSep "\n> \n> " (renderBlockSeq cs)

/-- The scenario-A input exactly as the spec writes it: a `div` carrying
only the `confluence-information-macro-warning` class. -/
def exPanelSingle : DNode :=
  .elem "div" ["confluence-information-macro-warning"] []
    [.elem "p" [] [] [.text "Be careful"]]

/-- The realistic warning panel: Confluence markup carries the base
`confluence-information-macro` class alongside the subtype class. -/
def exPanelBoth : DNode :=
  .elem "div" ["confluence-information-macro", "confluence-information-macro-warning"] []
    [.elem "p" [] [] [.text "Be careful"]]

/-- Counterexample to C5 as stated: the spec's scenario-A input carries only
the `confluence-information-macro-warning` class, which the selector
`.confluence-information-macro` (a whole-token class match) does not match;
neither do the `[data-panel-type]` or `.panel:not(.code)` passes.  The
conversion leaves the element untouched and no blockquote — hence no
`**⚠️ Warning:**` line — appears in the output. -/
theorem claim_C5_counterexample :
    convertPanelsL [exPanelSingle] = [exPanelSingle]
    ∧ hasElemTagInL ["blockquote"] (convertPanelsL [exPanelSingle]) = false := by
  constructor
  · rfl
  · rfl

/-- **C5 (amended)**: for the input
`<div class="confluence-information-macro confluence-information-macro-warning"><p>Be careful</p></div>`
(the spec's scenario input completed with the base macro class that the
selector requires), the conversion produces a blockquote whose first line is
`**⚠️ Warning:**` followed by `Be careful`. -/
theorem claim_C5_warning_panel_amended :
    convertPanelsL [exPanelBoth]
      = [DNode.elem "blockquote" [] []
          [DNode.elem "p" [] [] [DNode.elem "strong" [] [] [DNode.text "⚠️ Warning:"]],
           DNode.elem "p" [] [] [DNode.text "Be careful"]]]
    ∧ renderBlockquoteMd
        [DNode.elem "p" [] [] [DNode.elem "strong" [] [] [DNode.text "⚠️ Warning:"]],
         DNode.elem "p" [] [] [DNode.text "Be careful"]]
      = "> **⚠️ Warning:**\n> \n> Be careful" := by
  constructor
  · rfl
  · decide

/-! ### Claim C9: the pipeline operates on a clone only (`extractPage` /
`preprocessContent`, confluence.js:49-74 and 169-181).  `cloneNode(true)`
yields a tree sharing no node with the original, which the value semantics
of the embedding renders as a plain copy; the pipeline's output is computed
from the transformed copy while the live document is returned as the code
leaves it. -/

mutual

/-- Serialization of one node (`innerHTML` writ small: tags and text; the
attribute syntax is irrelevant to the claims and omitted). -/
def serializeN : DNode → String
  | .text s => s
  | .elem tg _ _ cs => "<" ++ tg ++ ">" ++ serializeL cs ++ "</" ++ tg ++ ">"

/-- Serialization of a node list. -/
def serializeL : List DNode → String
  | [] => ""
  | n :: ns => serializeN n ++ serializeL ns

end

/-- Whether the node is an emoticon image
(`img.emoticon, img[data-emoji-short-name]`). -/
def isEmoticonImg (n : DNode) : Bool :=
  match n with
  | .text _ => false
  | .elem tg cl a _ =>
    tg == "img" && (cl.contains "emoticon" || (a.find? (fun p => p.1 = "data-emoji-short-name")).isSome)

mutual

/-- `convertEmoticons` (confluence.js:210-219) on one node: an emoticon
image is replaced by its short-name/alt/title text. -/
def convertEmoticonsN : DNode → DNode
  | .text s => .text s
  | .elem tg cl a cs =>
    if isEmoticonImg (.elem tg cl a cs) then
      .text ((firstTruthy (firstTruthy ((a.find? (fun p => p.1 = "data-emoji-short-name")).map (fun p => p.2))
        ((a.find? (fun p => p.1 = "alt")).map (fun p => p.2)))
        ((a.find? (fun p => p.1 = "title")).map (fun p => p.2))).getD "")
    else .elem tg cl a (convertEmoticonsL cs)

/-- `convertEmoticons` over a node list. -/
def convertEmoticonsL : List DNode → List DNode
  | [] => []
  | n :: ns => convertEmoticonsN n :: convertEmoticonsL ns

end

/-- The modelled sub-passes of `preprocessContent`: emoticon conversion and
panel conversion, in source order (the remaining passes are likewise pure
functions of the clone's children). -/
def preprocessContentL (cs : List DNode) : List DNode :=
  convertPanelsL (convertEmoticonsL cs)

/-- The live page: its content element and its title text. -/
structure PageDocument where
  contentEl : DNode
  pageTitle : String

/-- `extractPage` (confluence.js:49-74) with the live document threaded
through: `const clone = contentEl.cloneNode(true)` copies the tree,
`preprocessContent(clone)` transforms the copy, and the response `html` is
the processed clone's serialization; the live document is returned exactly
as the code leaves it. -/
def extractPageModel (d : PageDocument) : (String × String) × PageDocument :=
  let clone := d.contentEl
  let html := serializeL (preprocessContentL (childrenN clone))
  ((d.pageTitle, html), d)

/-- A live page whose content element holds a warning panel (the pipeline
transforms its clone). -/
def exLivePage : PageDocument :=
  ⟨DNode.elem "div" [] [] [exPanelBoth], "Demo"⟩

/-- **C9**: extraction and preprocessing never mutate the live source
document — for every page the document after `extractPage` equals the
document before — while the returned `html` is computed from the transformed
clone; on a concrete page with a panel the transformed clone differs from
the source content, showing the preservation is not vacuous. -/
theorem claim_C9_clone_only (d : PageDocument) :
    (extractPageModel d).2.contentEl = d.contentEl
    ∧ (extractPageModel d).2.pageTitle = d.pageTitle
    ∧ (extractPageModel d).1.2 = serializeL (preprocessContentL (childrenN d.contentEl))
    ∧ (extractPageModel exLivePage).2.contentEl = exLivePage.contentEl
    ∧ serializeL (preprocessContentL (childrenN exLivePage.contentEl))
        ≠ serializeL (childrenN exLivePage.contentEl) := by
  refine ⟨rfl, rfl, rfl, rfl, ?_⟩
  decide

/-! ### Claim C2: separator lines.  Chunk A: split/join lemmas. -/

/-- `'\n' :: l` glued blocks (the shape of the assembled table content). -/
def glueNl (ms : List (List Char)) : List Char := (ms.map (fun l => '\n' :: l)).flatten

theorem splitNl_cons (c : Char) (cs : List Char) :
    splitNl (c :: cs) = match splitNl cs with
      | [] => [[c]]
      | l :: ls => if c = '\n' then [] :: l :: ls else (c :: l) :: ls := rfl

theorem splitNl_ne_nil (cs : List Char) : splitNl cs ≠ [] := by
  induction cs with
  | nil => simp [splitNl]
  | cons c cs ihx =>
    rw [splitNl_cons]
    cases h : splitNl cs with
    | nil => simp
    | cons l ls =>
      by_cases hc : c = '\n'
      · simp [hc]
      · simp [hc]

theorem splitNl_of_nlFree (l : List Char) (h : '\n' ∉ l) : splitNl l = [l] := by
  induction l with
  | nil => rfl
  | cons c cs ihx =>
    have hc : c ≠ '\n' := fun he => h (he ▸ List.mem_cons_self c cs)
    have hcs : '\n' ∉ cs := fun hm => h (List.mem_cons_of_mem c hm)
    rw [splitNl_cons, ihx hcs]
    dsimp only
    rw [if_neg hc]

theorem splitNl_cons_nl (cs : List Char) : splitNl ('\n' :: cs) = [] :: splitNl cs := by
  rw [splitNl_cons]
  cases h : splitNl cs with
  | nil => exact absurd h (splitNl_ne_nil cs)
  | cons l ls => simp

theorem splitNl_append (l cs : List Char) (h : '\n' ∉ l) :
    splitNl (l ++ cs) = (l ++ (splitNl cs).headD []) :: (splitNl cs).tail := by
  induction l with
  | nil =>
    cases hs : splitNl cs with
    | nil => exact absurd hs (splitNl_ne_nil cs)
    | cons x xs =>
      simp only [List.nil_append, hs]
      simp
  | cons c l2 ihx =>
    have hc : c ≠ '\n' := fun he => h (he ▸ List.mem_cons_self c l2)
    have hl2 : '\n' ∉ l2 := fun hm => h (List.mem_cons_of_mem c hm)
    show splitNl (c :: (l2 ++ cs)) = _
    rw [splitNl_cons, ihx hl2]
    dsimp only
    rw [if_neg hc]
    simp

theorem splitNl_joinNl (ms : List (List Char)) (h : ∀ m ∈ ms, '\n' ∉ m) (hne : ms ≠ []) :
    splitNl (joinNl ms) = ms := by
  induction ms with
  | nil => exact absurd rfl hne
  | cons m ms2 ihx =>
    cases ms2 with
    | nil =>
      show splitNl (joinNl [m]) = [m]
      exact splitNl_of_nlFree m (h m (List.mem_cons_self m []))
    | cons x r =>
      show splitNl (m ++ '\n' :: joinNl (x :: r)) = m :: x :: r
      rw [splitNl_append _ _ (h m (List.mem_cons_self m _))]
      rw [splitNl_cons_nl]
      rw [ihx (fun m2 hm2 => h m2 (List.mem_cons_of_mem m hm2)) (by simp)]
      simp

theorem joinNl_cons_glue (l : List Char) (ms : List (List Char)) :
    joinNl (l :: ms) = l ++ glueNl ms := by
  induction ms generalizing l with
  | nil => simp [joinNl, glueNl]
  | cons x r ihx =>
    show l ++ '\n' :: joinNl (x :: r) = _
    rw [ihx x]
    simp [glueNl]

/-! Chunk B: how `trim` acts on the glued table content. -/

theorem glueNl_cons (l : List Char) (ms : List (List Char)) :
    glueNl (l :: ms) = '\n' :: (l ++ glueNl ms) := by
  simp [glueNl]

theorem glueNl_append (a b : List (List Char)) :
    glueNl (a ++ b) = glueNl a ++ glueNl b := by
  simp [glueNl]

/-- Right-trim (proof helper): `trimChars` is a left `dropWhile` followed by
this. -/
def trimTail (l : List Char) : List Char := (l.reverse.dropWhile isJsWs).reverse

theorem trimChars_eq_trimTail (l : List Char) : trimChars l = trimTail (l.dropWhile isJsWs) := rfl

theorem trimTail_append_nl (x : List Char) : trimTail (x ++ ['\n']) = trimTail x := by
  unfold trimTail
  rw [List.reverse_append]
  show (List.dropWhile isJsWs ('\n' :: x.reverse)).reverse = _
  rw [List.dropWhile_cons, if_pos (by decide : isJsWs '\n' = true)]

theorem trimTail_of_last_pipe (x : List Char) (h : x.getLast? = some '|') : trimTail x = x := by
  unfold trimTail
  cases hx : x.reverse with
  | nil =>
    rw [List.reverse_eq_nil_iff] at hx
    rw [hx] at h
    simp at h
  | cons c y =>
    have hc : c = '|' := by
      have h2 : x.reverse.head? = some '|' := by
        rw [List.head?_reverse]
        exact h
      rw [hx] at h2
      simpa using h2
    rw [List.dropWhile_cons, if_neg (by rw [hc]; decide)]
    rw [← hx, List.reverse_reverse]

theorem trimChars_id_of_pipe (l : List Char) (h1 : l.head? = some '|')
    (h2 : l.getLast? = some '|') : trimChars l = l := by
  rw [trimChars_eq_trimTail]
  cases l with
  | nil => simp at h1
  | cons c rest =>
    have hc : c = '|' := by simpa using h1
    rw [List.dropWhile_cons, if_neg (by rw [hc]; decide)]
    exact trimTail_of_last_pipe _ h2

/-- Drop the trailing empty entries of a line list (proof helper). -/
def dropTrailingEmpties (ms : List (List Char)) : List (List Char) :=
  (ms.reverse.dropWhile List.isEmpty).reverse

theorem dropWhile_ws_glue (ms : List (List Char))
    (hshape : ∀ m ∈ ms, m.head? = some '|' ∨ m = []) :
    (glueNl ms).dropWhile isJsWs =
      (match ms.dropWhile List.isEmpty with
       | [] => []
       | l :: rest => l ++ glueNl rest) := by
  induction ms with
  | nil => rfl
  | cons m ms2 ihx =>
    rw [glueNl_cons, List.dropWhile_cons, if_pos (by decide : isJsWs '\n' = true)]
    rcases hshape m (List.mem_cons_self m ms2) with hp | he
    · obtain ⟨mt, rfl⟩ : ∃ mt, m = '|' :: mt := by
        cases m with
        | nil => simp at hp
        | cons c mt =>
          simp at hp
          exact ⟨mt, by rw [hp]⟩
      rw [List.cons_append, List.dropWhile_cons, if_neg (by decide : ¬ (isJsWs '|' = true))]
      rw [List.dropWhile_cons]
      rw [if_neg (by simp : ¬ (List.isEmpty ('|' :: mt) = true))]
      simp
    · subst he
      rw [List.nil_append]
      rw [ihx (fun m2 h2 => hshape m2 (List.mem_cons_of_mem _ h2))]
      rw [List.dropWhile_cons, if_pos (by rfl : List.isEmpty ([] : List Char) = true)]

theorem trimTail_glue (l : List Char) (hl : l.getLast? = some '|') (ms : List (List Char))
    (hshape : ∀ m ∈ ms, m.getLast? = some '|' ∨ m = []) :
    trimTail (l ++ glueNl ms) = joinNl (l :: dropTrailingEmpties ms) := by
  induction ms using List.reverseRecOn with
  | nil =>
    show trimTail (l ++ glueNl []) = joinNl [l]
    have h0 : glueNl [] = [] := rfl
    rw [h0, List.append_nil]
    exact trimTail_of_last_pipe l hl
  | append_singleton ms2 m ihx =>
    have hsub : ∀ m2 ∈ ms2, m2.getLast? = some '|' ∨ m2 = [] :=
      fun m2 h2 => hshape m2 (by simp [h2])
    rcases hshape m (by simp) with hp | he
    · have hmne : m ≠ [] := by intro h; rw [h] at hp; simp at hp
      have hg1 : glueNl [m] = '\n' :: m := by simp [glueNl]
      rw [glueNl_append, hg1]
      have hlast : (l ++ (glueNl ms2 ++ '\n' :: m)).getLast? = some '|' := by
        have hm2 : ('\n' :: m).getLast? = some '|' := by
          cases m with
          | nil => exact absurd rfl hmne
          | cons a t =>
            rw [← hp]
            exact List.getLast?_append_cons ['\n'] a t
        rw [List.getLast?_append_of_ne_nil _ (show glueNl ms2 ++ '\n' :: m ≠ [] by simp)]
        rw [List.getLast?_append_of_ne_nil _ (show ('\n' :: m : List Char) ≠ [] by simp)]
        exact hm2
      rw [trimTail_of_last_pipe _ hlast]
      have hdrop : dropTrailingEmpties (ms2 ++ [m]) = ms2 ++ [m] := by
        unfold dropTrailingEmpties
        rw [List.reverse_append]
        show ((m :: ms2.reverse).dropWhile List.isEmpty).reverse = _
        rw [List.dropWhile_cons, if_neg (by simp [hmne])]
        simp
      rw [hdrop, joinNl_cons_glue, glueNl_append, hg1]
    · subst he
      have hg1 : glueNl [([] : List Char)] = ['\n'] := by simp [glueNl]
      rw [glueNl_append, hg1]
      rw [show l ++ (glueNl ms2 ++ ['\n']) = (l ++ glueNl ms2) ++ ['\n'] by
        rw [List.append_assoc]]
      rw [trimTail_append_nl]
      rw [ihx hsub]
      have hdrop : dropTrailingEmpties (ms2 ++ [([] : List Char)]) = dropTrailingEmpties ms2 := by
        unfold dropTrailingEmpties
        rw [List.reverse_append]
        show ((([] : List Char) :: ms2.reverse).dropWhile List.isEmpty).reverse = _
        rw [List.dropWhile_cons, if_pos (by rfl : List.isEmpty ([] : List Char) = true)]
      rw [hdrop]

theorem dropWhile_cons_prop {α : Type} (p : α → Bool) (l : List α) (x : α) (xs : List α)
    (h : l.dropWhile p = x :: xs) : p x = false := by
  induction l with
  | nil => simp at h
  | cons a t ihx =>
    rw [List.dropWhile_cons] at h
    by_cases ha : p a = true
    · rw [if_pos ha] at h
      exact ihx h
    · rw [if_neg ha] at h
      injection h with h1 h2
      subst h1
      simpa using ha

theorem trimChars_glue (ms : List (List Char))
    (hshape : ∀ m ∈ ms, m = [] ∨ (m.head? = some '|' ∧ m.getLast? = some '|')) :
    trimChars (glueNl ms) = joinNl (dropTrailingEmpties (ms.dropWhile List.isEmpty)) := by
  rw [trimChars_eq_trimTail]
  rw [dropWhile_ws_glue ms (fun m hm => (hshape m hm).symm.imp And.left id)]
  cases h : ms.dropWhile List.isEmpty with
  | nil =>
    show trimTail [] = joinNl (dropTrailingEmpties [])
    rfl
  | cons l rest =>
    have hmem : ∀ m2 ∈ l :: rest, m2 ∈ ms := by
      intro m2 h2
      have := (List.dropWhile_sublist (p := List.isEmpty) (l := ms)).subset
      rw [h] at this
      exact this h2
    have hlne : l ≠ [] := by
      have := dropWhile_cons_prop List.isEmpty ms l rest h
      simpa using this
    have hlp : l.getLast? = some '|' := by
      rcases hshape l (hmem l (List.mem_cons_self l rest)) with h0 | h0
      · exact absurd h0 hlne
      · exact h0.2
    rw [trimTail_glue l hlp rest (fun m2 h2 =>
      ((hshape m2 (hmem m2 (List.mem_cons_of_mem _ h2))).symm.imp And.right id))]
    have hdt : dropTrailingEmpties (l :: rest) = l :: dropTrailingEmpties rest := by
      unfold dropTrailingEmpties
      rw [show (l :: rest).reverse = rest.reverse ++ [l] by simp]
      rw [List.dropWhile_append]
      by_cases hre : (rest.reverse.dropWhile List.isEmpty).isEmpty = true
      · rw [if_pos hre]
        rw [List.dropWhile_cons, if_neg (by simp [hlne])]
        have h0 : rest.reverse.dropWhile List.isEmpty = [] := by simpa using hre
        rw [h0]
        simp
      · rw [if_neg hre]
        rw [List.reverse_append]
        simp
    rw [hdt]

/-! Chunk C: shape of the rendered cell and separator lines. -/

theorem nl_not_mem_sp_map (l : List Char) :
    '\n' ∉ l.map (fun c => if c = '\n' then ' ' else c) := by
  intro h
  rcases List.mem_map.1 h with ⟨c, _, hc⟩
  by_cases h2 : c = '\n'
  · rw [if_pos h2] at hc
    exact absurd hc (by decide)
  · rw [if_neg h2] at hc
    exact h2 hc

theorem mem_escPipes_imp (a : Char) (l : List Char) (h : a ∈ escPipes l) : a = '\\' ∨ a ∈ l := by
  induction l with
  | nil => simp [escPipes] at h
  | cons c rest ihx =>
    rw [escPipes] at h
    by_cases hp : c = '|'
    · rw [if_pos hp] at h
      simp only [List.mem_cons] at h
      rcases h with h1 | h1 | h1
      · exact Or.inl h1
      · exact Or.inr (by rw [h1, hp]; exact List.mem_cons_self _ _)
      · rcases ihx h1 with h2 | h2
        · exact Or.inl h2
        · exact Or.inr (List.mem_cons_of_mem _ h2)
    · rw [if_neg hp] at h
      rcases List.mem_cons.1 h with h1 | h1
      · exact Or.inr (h1 ▸ List.mem_cons_self _ _)
      · rcases ihx h1 with h2 | h2
        · exact Or.inl h2
        · exact Or.inr (List.mem_cons_of_mem _ h2)

theorem mem_trimChars_imp (a : Char) (l : List Char) (h : a ∈ trimChars l) : a ∈ l := by
  unfold trimChars at h
  rw [List.mem_reverse] at h
  have h2 := (List.dropWhile_sublist (l := (l.dropWhile isJsWs).reverse) isJsWs).subset h
  rw [List.mem_reverse] at h2
  exact (List.dropWhile_sublist isJsWs).subset h2

theorem renderCellMd_nlFree (content : List Char) (b : Bool) : '\n' ∉ renderCellMd content b := by
  intro h
  simp only [renderCellMd] at h
  rcases List.mem_append.1 h with h1 | h1
  · rcases List.mem_append.1 h1 with h2 | h2
    · cases b
      · exact absurd h2 (by decide)
      · exact absurd h2 (by decide)
    · have h3 := mem_trimChars_imp _ _ h2
      rcases mem_escPipes_imp _ _ h3 with h4 | h4
      · exact absurd h4 (by decide)
      · exact nl_not_mem_sp_map _ h4
  · exact absurd h1 (by decide)

theorem cellLineAux_nlFree (b : Bool) (row : List Cell) : '\n' ∉ cellLineAux b row := by
  induction row generalizing b with
  | nil => simp [cellLineAux]
  | cons c rest ihx =>
    rw [cellLineAux]
    intro h
    rcases List.mem_append.1 h with h1 | h1
    · exact renderCellMd_nlFree _ _ h1
    · exact ihx false h1

theorem nl_not_mem_borderFor (s : String) : '\n' ∉ borderFor s := by
  unfold borderFor
  split_ifs <;> decide

theorem sepLineAux_nlFree (b : Bool) (row : List Cell) : '\n' ∉ sepLineAux b row := by
  induction row generalizing b with
  | nil => simp [sepLineAux]
  | cons c rest ihx =>
    rw [sepLineAux]
    intro h
    rcases List.mem_append.1 h with h1 | h1
    · rcases List.mem_append.1 h1 with h2 | h2
      · rcases List.mem_append.1 h2 with h3 | h3
        · cases b
          · exact absurd h3 (by decide)
          · exact absurd h3 (by decide)
        · exact nl_not_mem_borderFor _ h3
      · exact absurd h2 (by decide)
    · exact ihx false h1

theorem renderCellMd_ne_nil (content : List Char) (b : Bool) : renderCellMd content b ≠ [] := by
  simp only [renderCellMd]
  cases b <;> simp

theorem cellLineAux_ne_nil (b : Bool) (row : List Cell) (h : row ≠ []) :
    cellLineAux b row ≠ [] := by
  cases row with
  | nil => exact absurd rfl h
  | cons c rest =>
    rw [cellLineAux]
    intro h2
    exact renderCellMd_ne_nil _ _ (List.append_eq_nil.1 h2).1

theorem sepLineAux_ne_nil (b : Bool) (row : List Cell) (h : row ≠ []) :
    sepLineAux b row ≠ [] := by
  cases row with
  | nil => exact absurd rfl h
  | cons c rest =>
    rw [sepLineAux]
    simp

theorem cellLine_head (row : Row) (h : row ≠ []) : (cellLine row).head? = some '|' := by
  cases row with
  | nil => exact absurd rfl h
  | cons c rest => rfl

theorem sepLine_head (row : Row) (h : row ≠ []) : (sepLine row).head? = some '|' := by
  cases row with
  | nil => exact absurd rfl h
  | cons c rest => rfl

theorem getLast?_append_pair (A B : List Char) (a b : Char) :
    (A ++ B ++ [a, b]).getLast? = some b := by
  rw [List.append_assoc]
  rw [List.getLast?_append_of_ne_nil _ (show B ++ [a, b] ≠ [] by simp)]
  rw [List.getLast?_append_of_ne_nil _ (show ([a, b] : List Char) ≠ [] by simp)]
  rfl

theorem renderCellMd_last (content : List Char) (b : Bool) :
    (renderCellMd content b).getLast? = some '|' := by
  simp only [renderCellMd]
  exact getLast?_append_pair _ _ _ _

theorem cellLineAux_last (b : Bool) (row : List Cell) (h : row ≠ []) :
    (cellLineAux b row).getLast? = some '|' := by
  induction row generalizing b with
  | nil => exact absurd rfl h
  | cons c rest ihx =>
    rw [cellLineAux]
    by_cases h2 : rest = []
    · subst h2
      show (renderCellMd (renderInlineL c.children) b ++ cellLineAux false []).getLast? = _
      rw [show cellLineAux false [] = [] from rfl, List.append_nil]
      exact renderCellMd_last _ _
    · rw [List.getLast?_append_of_ne_nil _ (cellLineAux_ne_nil false rest h2)]
      exact ihx false h2

theorem sepLineAux_last (b : Bool) (row : List Cell) (h : row ≠ []) :
    (sepLineAux b row).getLast? = some '|' := by
  induction row generalizing b with
  | nil => exact absurd rfl h
  | cons c rest ihx =>
    rw [sepLineAux]
    by_cases h2 : rest = []
    · subst h2
      rw [show sepLineAux false [] = [] from rfl, List.append_nil]
      exact getLast?_append_pair _ _ _ _
    · rw [List.getLast?_append_of_ne_nil _ (sepLineAux_ne_nil false rest h2)]
      exact ihx false h2

theorem mem_borderFor_sepClass (s : String) : ∀ a ∈ borderFor s, sepClassChar a = true := by
  unfold borderFor
  split_ifs <;> decide

theorem sepLineAux_sepClass (b : Bool) (row : List Cell) :
    ∀ a ∈ sepLineAux b row, sepClassChar a = true := by
  induction row generalizing b with
  | nil => simp [sepLineAux]
  | cons c rest ihx =>
    intro a ha
    rw [sepLineAux] at ha
    rcases List.mem_append.1 ha with h1 | h1
    · rcases List.mem_append.1 h1 with h2 | h2
      · rcases List.mem_append.1 h2 with h3 | h3
        · cases b
          · simp at h3
            rw [h3]
            decide
          · simp at h3
            rcases h3 with rfl | rfl <;> decide
        · exact mem_borderFor_sepClass _ a h3
      · simp at h2
        rcases h2 with rfl | rfl <;> decide
    · exact ihx false a h1

theorem isSepLine_of_all (l : List Char) (h1 : l.head? = some '|') (h2 : l.getLast? = some '|')
    (h3 : ∀ c ∈ l, sepClassChar c = true) (h4 : 3 ≤ l.length) : isSepLine l = true := by
  unfold isSepLine
  rw [trimChars_id_of_pipe l h1 h2]
  cases l with
  | nil => simp at h1
  | cons c rest =>
    have hc : c = '|' := by simpa using h1
    subst hc
    show (rest.getLast? == some '|' && !rest.dropLast.isEmpty && rest.dropLast.all sepClassChar)
      = true
    have hrne : rest ≠ [] := by
      intro h0
      subst h0
      simp at h4
    have hrl : rest.getLast? = some '|' := by
      have := List.getLast?_append_of_ne_nil ['|'] hrne
      rw [show ['|'] ++ rest = '|' :: rest from rfl] at this
      rw [← this]
      exact h2
    have hdne : rest.dropLast ≠ [] := by
      have hl2 : 2 ≤ rest.length := by
        simp at h4
        omega
      rw [← List.length_pos, List.length_dropLast]
      omega
    rw [Bool.and_eq_true, Bool.and_eq_true]
    refine ⟨⟨?_, ?_⟩, ?_⟩
    · rw [hrl]
      rfl
    · simpa using hdne
    · rw [List.all_eq_true]
      intro x hx
      exact h3 x (List.mem_cons_of_mem _ ((List.dropLast_sublist rest).subset hx))

theorem sepLine_length (row : Row) (h : row ≠ []) : 3 ≤ (sepLine row).length := by
  cases row with
  | nil => exact absurd rfl h
  | cons c rest =>
    show 3 ≤ (sepLineAux true (c :: rest)).length
    rw [sepLineAux]
    simp [List.length_append]
    omega

theorem sepLine_isSep (row : Row) (h : row ≠ []) : isSepLine (sepLine row) = true :=
  isSepLine_of_all _ (sepLine_head row h) (sepLineAux_last true row h)
    (sepLineAux_sepClass true row) (sepLine_length row h)

theorem renderCellMd_pipes (content : List Char) : 2 ≤ (renderCellMd content true).count '|' := by
  show 2 ≤ ((['|', ' '] ++ trimChars (escPipes ((collapseNl2 content).map
    (fun c => if c = '\n' then ' ' else c)))) ++ [' ', '|']).count '|'
  rw [List.count_append, List.count_append]
  rw [show (['|', ' '] : List Char).count '|' = 1 from by decide]
  rw [show (([' ', '|'] : List Char)).count '|' = 1 from by decide]
  omega

theorem cellLine_pipes (row : Row) (h : row ≠ []) : 2 ≤ (cellLine row).count '|' := by
  cases row with
  | nil => exact absurd rfl h
  | cons c rest =>
    show 2 ≤ (cellLineAux true (c :: rest)).count '|'
    rw [cellLineAux, List.count_append]
    have h1 := renderCellMd_pipes (renderInlineL c.children)
    omega

theorem repSepCells_sepClass (n : Nat) : ∀ a ∈ repSepCells n, sepClassChar a = true := by
  induction n with
  | zero => simp [repSepCells]
  | succ m ihx =>
    cases m with
    | zero => decide
    | succ k =>
      rw [repSepCells]
      intro a ha
      rcases List.mem_append.1 ha with h1 | h1
      · exact (by decide : ∀ a ∈ (['-', '-', '-', ' ', '|', ' '] : List Char),
          sepClassChar a = true) a h1
      · exact ihx a h1

theorem defaultSep_isSep (n : Nat) : isSepLine (defaultSep n) = true := by
  apply isSepLine_of_all
  · rfl
  · exact getLast?_append_pair ['|', ' '] _ ' ' '|'
  · intro c hc
    unfold defaultSep at hc
    rcases List.mem_cons.1 hc with rfl | hc2
    · decide
    rcases List.mem_cons.1 hc2 with rfl | hc3
    · decide
    rcases List.mem_append.1 hc3 with h1 | h1
    · exact repSepCells_sepClass n c h1
    · simp at h1
      rcases h1 with rfl | rfl <;> decide
  · show 3 ≤ ('|' :: ' ' :: (repSepCells n ++ [' ', '|'])).length
    simp [List.length_append]

/-! Chunk D: the assembled table content splits back into the row lines. -/

/-- The lines one row contributes to the assembled table body: its content
line, and — for heading rows — the separator line. -/
def lineGlueFn (fr : Bool × Row) : List (List Char) :=
  cellLine fr.2 :: (if fr.1 then [sepLine fr.2] else [])

/-- All lines of the assembled table body, in order. -/
def allLines (t : Table) : List (List Char) :=
  (rowsWithFlags true none t.items).flatMap lineGlueFn

theorem rowsRender_glue (frs : List (Bool × Row)) :
    ((frs.map (fun fr => renderRowMd fr.1 fr.2)).flatten) = glueNl (frs.flatMap lineGlueFn) := by
  induction frs with
  | nil => rfl
  | cons fr rest ihx =>
    rw [List.map_cons, List.flatten_cons, ihx, List.flatMap_cons, glueNl_append]
    have h2 : renderRowMd fr.1 fr.2 = glueNl (lineGlueFn fr) := by
      unfold renderRowMd lineGlueFn
      cases h : fr.1
      · simp [glueNl]
      · simp [glueNl]
    rw [h2]

theorem tableContent_glue (t : Table) : tableContent t = glueNl (allLines t) :=
  rowsRender_glue _

theorem lineGlue_shape (frs : List (Bool × Row)) :
    ∀ l ∈ frs.flatMap lineGlueFn,
      ('\n' ∉ l) ∧ (l = [] ∨ (l.head? = some '|' ∧ l.getLast? = some '|')) := by
  intro l hl
  rcases List.mem_flatMap.1 hl with ⟨fr, _, hfr⟩
  unfold lineGlueFn at hfr
  rcases List.mem_cons.1 hfr with h1 | h1
  · subst h1
    refine ⟨cellLineAux_nlFree true fr.2, ?_⟩
    by_cases h2 : fr.2 = []
    · exact Or.inl (by rw [h2]; rfl)
    · exact Or.inr ⟨cellLine_head fr.2 h2, cellLineAux_last true fr.2 h2⟩
  · have h2 : l = sepLine fr.2 := by
      cases hb : fr.1
      · rw [hb] at h1
        simp at h1
      · rw [hb] at h1
        simpa using h1
    rw [h2]
    refine ⟨sepLineAux_nlFree true fr.2, ?_⟩
    by_cases h3 : fr.2 = []
    · exact Or.inl (by rw [h3]; rfl)
    · exact Or.inr ⟨sepLine_head fr.2 h3, sepLineAux_last true fr.2 h3⟩

theorem allLines_shape (t : Table) :
    ∀ l ∈ allLines t,
      ('\n' ∉ l) ∧ (l = [] ∨ (l.head? = some '|' ∧ l.getLast? = some '|')) :=
  lineGlue_shape _

theorem filter_nonempty_dropWhile (x : List (List Char)) :
    (x.dropWhile List.isEmpty).filter (fun l => !l.isEmpty)
      = x.filter (fun l => !l.isEmpty) := by
  conv_rhs => rw [← List.takeWhile_append_dropWhile List.isEmpty x]
  rw [List.filter_append]
  have h0 : (x.takeWhile List.isEmpty).filter (fun l => !l.isEmpty) = [] := by
    rw [List.filter_eq_nil_iff]
    intro a ha
    have := List.mem_takeWhile_imp ha
    simp [this]
  rw [h0, List.nil_append]

theorem filter_nonempty_dropTrailing (x : List (List Char)) :
    (dropTrailingEmpties x).filter (fun l => !l.isEmpty)
      = x.filter (fun l => !l.isEmpty) := by
  unfold dropTrailingEmpties
  rw [List.filter_reverse, filter_nonempty_dropWhile, List.filter_reverse, List.reverse_reverse]

theorem mem_dropTrailing_dropWhile_imp (m : List Char) (x : List (List Char))
    (h : m ∈ dropTrailingEmpties (x.dropWhile List.isEmpty)) : m ∈ x := by
  unfold dropTrailingEmpties at h
  rw [List.mem_reverse] at h
  have h2 := (List.dropWhile_sublist List.isEmpty).subset h
  rw [List.mem_reverse] at h2
  exact (List.dropWhile_sublist List.isEmpty).subset h2

/-- The filtered line list of the `table` rule is exactly the non-empty row
lines, in order. -/
theorem tableLinesPre_eq (t : Table) :
    tableLinesPre t = (allLines t).filter (fun l => !l.isEmpty) := by
  have hshape := allLines_shape t
  unfold tableLinesPre
  rw [tableContent_glue]
  rw [trimChars_glue _ (fun m hm => (hshape m hm).2)]
  by_cases hne : dropTrailingEmpties ((allLines t).dropWhile List.isEmpty) = []
  · rw [hne]
    rw [show splitNl (joinNl []) = [[]] from rfl]
    rw [show (([[]] : List (List Char)).filter (fun l => !(trimChars l).isEmpty)) = []
      from by decide]
    symm
    rw [List.filter_eq_nil_iff]
    intro a ha
    have hall : ∀ z ∈ (allLines t).dropWhile List.isEmpty, List.isEmpty z = true := by
      intro z hz
      have h2 : ((allLines t).dropWhile List.isEmpty).reverse.dropWhile List.isEmpty = [] := by
        have := congrArg List.reverse hne
        unfold dropTrailingEmpties at this
        simpa using this
      rw [List.dropWhile_eq_nil_iff] at h2
      exact h2 z (by rw [List.mem_reverse]; exact hz)
    have haem : List.isEmpty a = true := by
      rcases List.mem_append.1
        (by rw [List.takeWhile_append_dropWhile List.isEmpty (allLines t)]; exact ha :
          a ∈ (allLines t).takeWhile List.isEmpty ++ (allLines t).dropWhile List.isEmpty)
        with h1 | h1
      · exact List.mem_takeWhile_imp h1
      · exact hall a h1
    simp [haem]
  · have hsub : ∀ m ∈ dropTrailingEmpties ((allLines t).dropWhile List.isEmpty),
        m ∈ allLines t := fun m hm => mem_dropTrailing_dropWhile_imp m _ hm
    rw [splitNl_joinNl _ (fun m hm => (hshape m (hsub m hm)).1) hne]
    have hcongr : (dropTrailingEmpties ((allLines t).dropWhile List.isEmpty)).filter
          (fun l => !(trimChars l).isEmpty)
        = (dropTrailingEmpties ((allLines t).dropWhile List.isEmpty)).filter
          (fun l => !l.isEmpty) := by
      apply List.filter_congr
      intro m hm
      rcases (hshape m (hsub m hm)).2 with h0 | h0
      · rw [h0]
        rfl
      · show (!(trimChars m).isEmpty) = (!m.isEmpty)
        rw [trimChars_id_of_pipe m h0.1 h0.2]
    rw [hcongr, filter_nonempty_dropTrailing, filter_nonempty_dropWhile]

/-! Chunk E: counting the separator lines. -/

theorem nonempty_pred_true {α : Type} (l : List α) (h : l ≠ []) : (!l.isEmpty) = true := by
  cases l with
  | nil => exact absurd rfl h
  | cons c rest => rfl

theorem isSep_and_nonempty (l : List Char) : (isSepLine l && !l.isEmpty) = isSepLine l := by
  cases l with
  | nil => rfl
  | cons c rest => simp

theorem filter_sep_pre (t : Table) :
    (tableLinesPre t).filter isSepLine = (allLines t).filter isSepLine := by
  rw [tableLinesPre_eq, List.filter_filter]
  exact List.filter_congr (fun a _ => isSep_and_nonempty a)

theorem sepCount_lineGlue (frs : List (Bool × Row))
    (hcell : ∀ fr ∈ frs, isSepLine (cellLine fr.2) = false) :
    ((frs.flatMap lineGlueFn).filter isSepLine).length
      = (frs.filter (fun fr => fr.1 && !fr.2.isEmpty)).length := by
  induction frs with
  | nil => rfl
  | cons fr rest ihx =>
    have hc := hcell fr (List.mem_cons_self _ _)
    have hrest := ihx (fun fr2 h2 => hcell fr2 (List.mem_cons_of_mem _ h2))
    rw [List.flatMap_cons, List.filter_append, List.length_append, hrest]
    by_cases hb : fr.1 = true
    · by_cases hr : fr.2 = []
      · have e1 : lineGlueFn fr = [[], []] := by
          unfold lineGlueFn
          rw [if_pos hb, hr]
          rfl
        rw [e1]
        rw [show (([[], []] : List (List Char)).filter isSepLine) = [] from by decide]
        rw [List.filter_cons_of_neg (by simp [hb, hr])]
        simp
      · have e1 : lineGlueFn fr = [cellLine fr.2, sepLine fr.2] := by
          unfold lineGlueFn
          rw [if_pos hb]
        rw [e1]
        rw [List.filter_cons_of_neg (by simp [hc])]
        rw [List.filter_cons_of_pos (by simp [sepLine_isSep fr.2 hr])]
        rw [List.filter_cons_of_pos (by simp [hb, hr])]
        simp
        omega
    · have hb2 : fr.1 = false := by simpa using hb
      have e1 : lineGlueFn fr = [cellLine fr.2] := by
        unfold lineGlueFn
        rw [if_neg hb]
      rw [e1]
      rw [List.filter_cons_of_neg (by simp [hc])]
      rw [List.filter_cons_of_neg (by simp [hb2])]
      simp

theorem mem_lineGlue_cases (frs : List (Bool × Row)) (l : List Char)
    (h : l ∈ frs.flatMap lineGlueFn) :
    ∃ fr ∈ frs, l = cellLine fr.2 ∨ (fr.1 = true ∧ l = sepLine fr.2) := by
  rcases List.mem_flatMap.1 h with ⟨fr, hm, hfr⟩
  refine ⟨fr, hm, ?_⟩
  unfold lineGlueFn at hfr
  rcases List.mem_cons.1 hfr with h1 | h1
  · exact Or.inl h1
  · cases hb : fr.1
    · rw [hb] at h1
      simp at h1
    · rw [hb] at h1
      exact Or.inr ⟨rfl, by simpa using h1⟩

theorem eq_of_mem_len_le_one {α : Type} (l : List α) (h : l.length ≤ 1) (a b : α)
    (ha : a ∈ l) (hb : b ∈ l) : a = b := by
  cases l with
  | nil => simp at ha
  | cons x xs =>
    cases xs with
    | nil =>
      have h1 : a = x := by simpa using ha
      have h2 : b = x := by simpa using hb
      rw [h1, h2]
    | cons y ys => simp at h

/-- C2 (counterexample): the claim promises exactly one alignment-separator
line in every non-empty rendered table. The normalization of a table whose
`thead` holds a single long-text `td` row yields a `thead` with two rows
(the original row plus the synthesized `Column 1` header); every `thead`
row is a heading row for the `tableRow` rule, so each receives its own
separator line and the rendered output contains two separator lines. -/
theorem claim_C2_counterexample :
    renderTableMd (normalizeTable exNonIdem) ≠ []
    ∧ ((tableLinesOut (normalizeTable exNonIdem)).filter isSepLine).length = 2 := by
  constructor
  · decide
  · decide

/-- C2 (amended): for a table with at most one heading-flagged row whose
row content lines are not themselves separator-shaped and whose rendered
Markdown is non-empty, exactly one separator-shaped line appears among the
output lines; it sits directly beneath the heading row's content line when
a non-empty heading row exists, and otherwise it is the synthetic
separator spliced in at position 1, its column count inferred from the
pipe count of the first line. -/
theorem claim_C2_separator_line (t : Table)
    (hone : ((rowsWithFlags true none t.items).filter (fun fr => fr.1)).length ≤ 1)
    (hcell : ∀ fr ∈ rowsWithFlags true none t.items, isSepLine (cellLine fr.2) = false)
    (hmd : renderTableMd t ≠ []) :
    ((tableLinesOut t).filter isSepLine).length = 1
    ∧ (∀ fr ∈ rowsWithFlags true none t.items, fr.1 = true → fr.2 ≠ [] →
        ∃ i, (tableLinesOut t).getD i [] = cellLine fr.2
          ∧ (tableLinesOut t).getD (i + 1) [] = sepLine fr.2
          ∧ isSepLine ((tableLinesOut t).getD (i + 1) []) = true)
    ∧ ((∀ fr ∈ rowsWithFlags true none t.items, fr.1 = true → fr.2 = []) →
        (tableLinesOut t).getD 1 []
            = defaultSep (((tableLinesOut t).headD []).count '|' - 1)
          ∧ isSepLine ((tableLinesOut t).getD 1 []) = true) := by
  have hpre_ne : tableLinesPre t ≠ [] := by
    intro h0
    apply hmd
    unfold renderTableMd
    rw [h0]
    rfl
  by_cases hk : ∃ fr ∈ rowsWithFlags true none t.items, fr.1 = true ∧ fr.2 ≠ []
  · obtain ⟨hr, hmem, hflag, hne⟩ := hk
    obtain ⟨F1, F2, hsplit⟩ := List.append_of_mem hmem
    have hall : allLines t
        = F1.flatMap lineGlueFn
          ++ (cellLine hr.2 :: sepLine hr.2 :: F2.flatMap lineGlueFn) := by
      unfold allLines
      rw [hsplit, List.flatMap_append, List.flatMap_cons]
      congr 1
      unfold lineGlueFn
      rw [if_pos hflag]
      rfl
    have hpre : tableLinesPre t
        = (F1.flatMap lineGlueFn).filter (fun l => !l.isEmpty)
          ++ (cellLine hr.2 :: sepLine hr.2
              :: (F2.flatMap lineGlueFn).filter (fun l => !l.isEmpty)) := by
      rw [tableLinesPre_eq, hall, List.filter_append]
      congr 1
      rw [@List.filter_cons_of_pos _ (fun l => !List.isEmpty l) (cellLine hr.2)
        (sepLine hr.2 :: F2.flatMap lineGlueFn)
        (nonempty_pred_true _ (cellLineAux_ne_nil true hr.2 hne))]
      rw [@List.filter_cons_of_pos _ (fun l => !List.isEmpty l) (sepLine hr.2)
        (F2.flatMap lineGlueFn)
        (nonempty_pred_true _ (sepLineAux_ne_nil true hr.2 hne))]
    have hany : (tableLinesPre t).any isSepLine = true := by
      rw [List.any_eq_true]
      refine ⟨sepLine hr.2, ?_, sepLine_isSep hr.2 hne⟩
      rw [hpre]
      exact List.mem_append_right _ (List.mem_cons_of_mem _ (List.mem_cons_self _ _))
    have houtp : tableLinesOut t = tableLinesPre t := by
      simp only [tableLinesOut]
      rw [hany]
      simp
    have hcount : ((tableLinesOut t).filter isSepLine).length = 1 := by
      rw [houtp, filter_sep_pre]
      rw [show allLines t = (rowsWithFlags true none t.items).flatMap lineGlueFn from rfl]
      rw [sepCount_lineGlue _ hcell]
      have hup : ((rowsWithFlags true none t.items).filter
            (fun fr => fr.1 && !fr.2.isEmpty)).length
          ≤ ((rowsWithFlags true none t.items).filter (fun fr => fr.1)).length := by
        rw [← List.countP_eq_length_filter, ← List.countP_eq_length_filter]
        exact List.countP_mono_left (fun x _ hx => by
          rw [Bool.and_eq_true] at hx
          exact hx.1)
      have hlow : 0 < ((rowsWithFlags true none t.items).filter
          (fun fr => fr.1 && !fr.2.isEmpty)).length := by
        rw [List.length_pos]
        intro hnil
        have hmf : hr ∈ (rowsWithFlags true none t.items).filter
            (fun fr => fr.1 && !fr.2.isEmpty) :=
          List.mem_filter.2 ⟨hmem, by
            rw [Bool.and_eq_true]
            exact ⟨hflag, nonempty_pred_true _ hne⟩⟩
        rw [hnil] at hmf
        simp at hmf
      omega
    refine ⟨hcount, ?_, ?_⟩
    · intro fr hm hflag2 hne2
      have hfr_eq : fr = hr := by
        apply eq_of_mem_len_le_one _ hone
        · exact List.mem_filter.2 ⟨hm, hflag2⟩
        · exact List.mem_filter.2 ⟨hmem, hflag⟩
      rw [hfr_eq]
      have hg0 : (tableLinesOut t).getD
          (((F1.flatMap lineGlueFn).filter (fun l => !l.isEmpty)).length) []
          = cellLine hr.2 := by
        rw [houtp, hpre]
        have hgt := getD_append_right_len
          ((F1.flatMap lineGlueFn).filter (fun l => !l.isEmpty))
          (cellLine hr.2 :: sepLine hr.2
            :: (F2.flatMap lineGlueFn).filter (fun l => !l.isEmpty)) 0 []
        simpa using hgt
      have hg1 : (tableLinesOut t).getD
          (((F1.flatMap lineGlueFn).filter (fun l => !l.isEmpty)).length + 1) []
          = sepLine hr.2 := by
        rw [houtp, hpre]
        have hgt := getD_append_right_len
          ((F1.flatMap lineGlueFn).filter (fun l => !l.isEmpty))
          (cellLine hr.2 :: sepLine hr.2
            :: (F2.flatMap lineGlueFn).filter (fun l => !l.isEmpty)) 1 []
        simpa using hgt
      exact ⟨_, hg0, hg1, by rw [hg1]; exact sepLine_isSep hr.2 hne⟩
    · intro hallempty
      exact absurd (hallempty hr hmem hflag) hne
  · have hnone : ∀ fr ∈ rowsWithFlags true none t.items, fr.1 = true → fr.2 = [] := by
      intro fr hm hflag
      by_contra hne2
      exact hk ⟨fr, hm, hflag, hne2⟩
    have hnosep : ∀ l ∈ tableLinesPre t, isSepLine l = false := by
      intro l hl
      rw [tableLinesPre_eq] at hl
      have hl2 := List.mem_of_mem_filter hl
      rcases mem_lineGlue_cases _ l hl2 with ⟨fr, hm, hca | ⟨hflag, hse⟩⟩
      · rw [hca]
        exact hcell fr hm
      · rw [hse, hnone fr hm hflag]
        rfl
    have hany : (tableLinesPre t).any isSepLine = false := by
      cases hq : (tableLinesPre t).any isSepLine with
      | false => rfl
      | true =>
        rcases List.any_eq_true.1 hq with ⟨x, hx, hsx⟩
        rw [hnosep x hx] at hsx
        exact Bool.noConfusion hsx
    obtain ⟨h0, rest0, hlines⟩ : ∃ h0 rest0, tableLinesPre t = h0 :: rest0 := by
      cases hq : tableLinesPre t with
      | nil => exact absurd hq hpre_ne
      | cons a b => exact ⟨a, b, rfl⟩
    have hh0mem : h0 ∈ tableLinesPre t := by
      rw [hlines]
      exact List.mem_cons_self _ _
    have hh0ne : h0 ≠ [] := by
      have h2 := hh0mem
      rw [tableLinesPre_eq] at h2
      have h3 := List.of_mem_filter h2
      simpa using h3
    have hh0all : h0 ∈ allLines t := by
      have h2 := hh0mem
      rw [tableLinesPre_eq] at h2
      exact List.mem_of_mem_filter h2
    obtain ⟨fr, hm, hcase⟩ := mem_lineGlue_cases _ h0 hh0all
    have hh0cell : h0 = cellLine fr.2 ∧ fr.2 ≠ [] := by
      rcases hcase with hca | ⟨hflag, hse⟩
      · refine ⟨hca, ?_⟩
        intro hz
        apply hh0ne
        rw [hca, hz]
        rfl
      · exfalso
        apply hh0ne
        rw [hse, hnone fr hm hflag]
        rfl
    have hpipes : 2 ≤ h0.count '|' := by
      rw [hh0cell.1]
      exact cellLine_pipes fr.2 hh0cell.2
    have hpos : 0 < h0.count '|' - 1 := by omega
    have houtp : tableLinesOut t
        = h0 :: defaultSep (h0.count '|' - 1) :: rest0 := by
      simp only [tableLinesOut]
      rw [hany, if_neg (show ¬ (false = true) by simp)]
      rw [hlines]
      simp only [List.headD_cons, List.tail_cons]
      rw [if_pos hpos]
    have hseps_out : ((tableLinesOut t).filter isSepLine).length = 1 := by
      rw [houtp]
      rw [List.filter_cons_of_neg (by
        rw [hnosep h0 hh0mem]
        simp)]
      rw [List.filter_cons_of_pos (defaultSep_isSep _)]
      have hrest_nil : rest0.filter isSepLine = [] := by
        rw [List.filter_eq_nil_iff]
        intro a ha
        rw [hnosep a (by rw [hlines]; exact List.mem_cons_of_mem _ ha)]
        simp
      rw [hrest_nil]
      rfl
    refine ⟨hseps_out, ?_, ?_⟩
    · intro fr2 hm2 hflag2 hne2
      exact absurd (hnone fr2 hm2 hflag2) hne2
    · intro _
      have hg1 : (tableLinesOut t).getD 1 [] = defaultSep (h0.count '|' - 1) := by
        rw [houtp]
        simp [List.getD_cons_succ, List.getD_cons_zero]
      constructor
      · rw [hg1, houtp]
        simp [List.headD_cons]
      · rw [hg1]
        exact defaultSep_isSep _

/-- The two-row table of the C2 witness: a `thead` header row over one data
row. -/
def exC2 : Table := ⟨[.theadE [[thCellOf "H"]], .tbodyE [[tdCellOf "x"]]]⟩

theorem claim_C2_separator_line_witness :
    ((tableLinesOut exC2).filter isSepLine).length = 1 :=
  (claim_C2_separator_line exC2 (by decide) (by decide) (by decide)).1

end MarkBridge
